import Mathlib

/-!
# Verification of the new-api admission-control core

A shallow embedding, in Lean 4, of the request-fingerprint cache and the
distributed rate limiter of the `new-api` gateway, together with proofs of
the specification claims about them.

The embedding follows the Go and Lua sources:

* `common/limiter/lua/sliding_window.lua` — the atomic sliding-window script
  (modes: check / check-and-record / record / rollback);
* `common/limiter/limiter.go` — the `SlidingWindowWithEntry` wrapper;
* `middleware` model-rate-limit middleware — `checkSingleRedisRateLimit`,
  `enforceRedisModelRateLimit`, `enforceMemoryModelRateLimit`,
  `ModelRequestRateLimit` (policy merge);
* `common/rate-limit.go` — the in-process `InMemoryRateLimiter`;
* `common/hash.go` — `HashShard`;
* `middleware/distributor.go` — the request-fingerprint parse cache.

Redis strings holding window entries (`"sec.micros"` or
`"sec.micros-token"`) are modelled structurally as a timestamp in
microseconds plus an optional token; the rendering into the literal Redis
string is implemented (`entryRaw`) so that the script's raw string
operations (`LREM` by value, the Lua pattern `'^.+%-(.+)$'`) are
reproduced exactly.  Redis `EXPIRE` calls only bound memory and are not
part of any claim, so the model carries no TTL for window keys.

The token-bucket script `rate_limit.lua` is not part of the provided
sources; it is modelled from the spec (see `tbAllow`).
-/

namespace NewApi

/-! ## Strings of the sliding-window script -/

/-- `%06d` rendering of the microsecond part of a timestamp. -/
def pad6 (n : Nat) : String :=
  let s := toString n
  String.mk (List.replicate (6 - s.length) '0') ++ s

/-- The `string.format('%d.%06d', sec, micros)` rendering of a timestamp
given in microseconds. -/
def timeStr (t : Nat) : String :=
  toString (t / 1000000) ++ "." ++ pad6 (t % 1000000)

/-- One entry of the Redis list backing a sliding window.  In Redis the
entry is the string `"sec.micros"`, or `"sec.micros-token"` when the caller
supplied a unique token; the timestamp (microseconds) and the token are
kept structurally.  `suffix = ""` encodes the absence of a token, matching
the script's `custom_entry ~= ''` tests. -/
structure SWEntry where
  time : Nat
  suffix : String
deriving DecidableEq, Repr

/-- The literal Redis string of an entry. -/
def entryRaw (e : SWEntry) : String :=
  if e.suffix = "" then timeStr e.time
  else timeStr e.time ++ "-" ++ e.suffix

/-- Walks the reversed character list of a string looking for the rightmost
`'-'` that has a nonempty tail after it and a nonempty head before it;
`acc` holds, in original order, the characters already passed. -/
def lastSuffixAux : List Char → List Char → Option (List Char)
  | [], _ => none
  | c :: rest, acc =>
      if c = '-' ∧ acc ≠ [] ∧ rest ≠ [] then some acc
      else lastSuffixAux rest (c :: acc)

/-- The fragment captured by the Lua pattern `'^.+%-(.+)$'`: everything
after the rightmost `'-'` that has at least one character on each side
(the greedy `.+` backtracks to the last such dash). -/
def luaDashSuffix (s : String) : Option String :=
  (lastSuffixAux s.data.reverse []).map String.mk

/-- A well-formed reservation token: nonempty and free of `'.'` and `'-'`.
Tokens produced by `common.GetUUID()` (32 lowercase hex characters) are
well-formed. -/
def WfToken (tok : String) : Prop :=
  tok ≠ "" ∧ '.' ∉ tok.data ∧ '-' ∉ tok.data

instance (tok : String) : Decidable (WfToken tok) := by
  unfold WfToken; infer_instance

/-! ## State of one sliding-window key -/

/-- The Redis state behind one sliding-window key: the list (head = newest,
because the script inserts with `LPUSH`) and the auxiliary `key .. ':idx'`
hash mapping a reservation token to the full entry it indexes.  A Redis
hash has unique fields, so deletion removes every pair with the field. -/
structure SWState where
  list : List SWEntry
  idx : List (String × SWEntry)
deriving DecidableEq, Repr

def SWState.empty : SWState := ⟨[], []⟩

/-- `HGET`: first binding of the field, if any. -/
def hget (idx : List (String × SWEntry)) (k : String) : Option SWEntry :=
  (idx.find? (fun p => p.1 = k)).map (·.2)

/-- `HDEL`: remove the field (Redis hash fields are unique; the model
removes every binding of the field). -/
def hdel (idx : List (String × SWEntry)) (k : String) : List (String × SWEntry) :=
  idx.filter (fun p => ¬ p.1 = k)

/-- `HSET`: bind the field to the value. -/
def hset (idx : List (String × SWEntry)) (k : String) (v : SWEntry) :
    List (String × SWEntry) :=
  (k, v) :: hdel idx k

/-- `LREM key 1 value`: remove the first element satisfying `p`, returning
the new list and the number of removed elements (0 or 1). -/
def lremFirst : List SWEntry → (SWEntry → Bool) → List SWEntry × Nat
  | [], _ => ([], 0)
  | a :: as, p =>
      if p a then (as, 1)
      else
        let r := lremFirst as p
        (a :: r.1, r.2)

/-- The script's `delete_index_by_entry`: extract the token after the last
good `'-'` of the entry string and `HDEL` it from the index (no deletion
when the pattern does not match). -/
def deleteIndexByRaw (idx : List (String × SWEntry)) (s : String) :
    List (String × SWEntry) :=
  match luaDashSuffix s with
  | some t => hdel idx t
  | none => idx

/-- The push-and-trim block shared by modes 1 and 2: `LPUSH` the entry;
if the list was already at `max_requests`, `RPOP` the oldest and clean its
index binding; `LTRIM 0 max_requests-1`; index the new entry when it
carries a token. -/
def pushTrim (st : SWState) (entry : SWEntry) (maxRequests : Int)
    (listLen : Nat) : SWState :=
  let l1 := entry :: st.list
  let r :=
    if (listLen : Int) ≥ maxRequests then
      match l1.getLast? with
      | some evicted => (l1.dropLast, deleteIndexByRaw st.idx (entryRaw evicted))
      | none => (l1, st.idx)
    else (l1, st.idx)
  let l3 := r.1.take maxRequests.toNat
  let idx2 := if entry.suffix ≠ "" then hset r.2 entry.suffix entry else r.2
  { list := l3, idx := idx2 }

/-- One invocation of `sliding_window.lua` on the state of one key.
`nowMicros` is the value of Redis `TIME` in microseconds; times are exact
(the script's float comparison `(now - oldest) < window_seconds` is scaled
by 10^6, which is exact for realistic clock values).  The script's
`DEL`-on-unparsable-oldest fallback is unreachable here because every
entry carries a numeric timestamp.  `EXPIRE` calls are not modelled. -/
def swScript (st : SWState) (maxRequests windowSeconds : Int) (mode : Nat)
    (customEntry : String) (nowMicros : Nat) : SWState × Int :=
  if mode = 3 then
    if customEntry ≠ "" then
      let r1 := lremFirst st.list (fun e => entryRaw e = customEntry)
      if r1.2 = 0 then
        match hget st.idx customEntry with
        | some fe =>
            let r2 := lremFirst st.list (fun e => e = fe)
            if r2.2 > 0 then
              ({ list := r2.1, idx := deleteIndexByRaw st.idx (entryRaw fe) }, 1)
            else ({ list := r2.1, idx := st.idx }, 0)
        | none => (st, 0)
      else ({ list := r1.1, idx := deleteIndexByRaw st.idx customEntry }, 1)
    else (st, 0)
  else if maxRequests ≤ 0 then (st, 1)
  else if windowSeconds ≤ 0 then (st, 1)
  else
    let entry : SWEntry := { time := nowMicros, suffix := customEntry }
    let listLen := st.list.length
    let allowed : Int :=
      if (listLen : Int) ≥ maxRequests then
        match st.list.getLast? with
        | some oldest =>
            if (nowMicros : Int) - (oldest.time : Int) < windowSeconds * 1000000
            then 0 else 1
        | none => 1
      else 1
    if mode = 1 then
      if allowed = 1 then (pushTrim st entry maxRequests listLen, 1)
      else (st, 0)
    else if mode = 2 then (pushTrim st entry maxRequests listLen, allowed)
    else (st, allowed)

/-- `RedisLimiter.SlidingWindowWithEntry` (limiter.go): the no-limit bypass
applies to every mode except rollback; otherwise the script runs and the
call reports whether it returned 1.  Transport errors are external to the
model; `expireSeconds` only feeds `EXPIRE` and is dropped. -/
def SlidingWindowWithEntry (st : SWState) (maxRequestNum : Int)
    (windowSeconds : Int) (mode : Nat) (entry : String) (nowMicros : Nat) :
    SWState × Bool :=
  if mode ≠ 3 ∧ (maxRequestNum ≤ 0 ∨ windowSeconds ≤ 0) then (st, true)
  else
    let r := swScript st maxRequestNum windowSeconds mode entry nowMicros
    (r.1, r.2 = 1)

/-! ## `HashShard` (common/hash.go) -/

/-- One bit-round of the reflected CRC-32 (IEEE) computation. -/
def crcRound (x : Nat) : Nat :=
  if x % 2 = 1 then (x / 2) ^^^ 0xEDB88320 else x / 2

/-- Fold one byte into the running CRC (8 bit-rounds). -/
def crcByte (crc b : Nat) : Nat :=
  crcRound^[8] ((crc ^^^ b) % 4294967296)

/-- `crc32.ChecksumIEEE` over a byte sequence. -/
def crc32IEEE (bytes : List Nat) : Nat :=
  (bytes.foldl crcByte 0xFFFFFFFF) ^^^ 0xFFFFFFFF

/-- The UTF-8 bytes of a string (Go strings are UTF-8 byte sequences). -/
def utf8Bytes (s : String) : List Nat :=
  s.toUTF8.toList.map (·.toNat)

/-- `common.HashShard`: stable shard suffix in `[0, shardCount-1]`;
`"0"` whenever `shardCount <= 1`.  The Go code computes
`crc32(input) % uint32(shardCount)` and prints it in decimal. -/
def HashShard (input : String) (shardCount : Int) : String :=
  if shardCount ≤ 1 then "0"
  else toString (crc32IEEE (utf8Bytes input) % (shardCount.toNat % 4294967296))

/-! ## Token bucket (total-count policy)

Modelled from the spec: the script `rate_limit.lua` embedded by
`common/limiter/limiter.go` is not among the provided sources.  Per the
spec, the bucket has a capacity, refills at `rate` tokens per second, and
each request costs `requested` tokens; an idle (fresh) bucket is full. -/

/-- Modelled from the spec: the persistent state of one token bucket —
the token balance and the time (Unix seconds) of the last refill. -/
structure TBState where
  tokens : Int
  last : Int
deriving DecidableEq, Repr

/-- Modelled from the spec: a fresh (idle) bucket is full. -/
def TBState.fresh (capacity now : Int) : TBState :=
  { tokens := capacity, last := now }

/-- Modelled from the spec: `RedisLimiter.Allow` semantics — refill by
`rate` per elapsed second capped at `capacity`, then admit and debit if
the balance covers `requested`. -/
def tbAllow (capacity rate requested : Int) (st : TBState) (now : Int) :
    TBState × Bool :=
  let tokens := min capacity (st.tokens + rate * (now - st.last))
  if requested ≤ tokens then ({ tokens := tokens - requested, last := now }, true)
  else ({ tokens := tokens, last := now }, false)

/-! ## Model-request rate-limit middleware: policy evaluation

`checkSingleRedisRateLimit` / `enforceRedisModelRateLimit` are embedded
twice: once against an oracle of script results (so that transport errors
can be injected and the emitted operation trace inspected — claims C1 and
C5), and once against an explicit store (sequential semantics — claim C9).
-/

/-- `modelRateLimitPolicy` (middleware). -/
structure ModelRateLimitPolicy where
  identifier : String
  durationMinutes : Int
  totalMaxCount : Int
  successMaxCount : Int
deriving DecidableEq, Repr

/-- `redisSuccessRecord` (middleware): a speculative success reservation
surviving a policy check. -/
structure RedisSuccessRecord where
  successKey : String
  durationMinutes : Int
  entrySuffix : String
deriving DecidableEq, Repr

/-- Result of one atomic script call as seen by the Go caller: a verdict,
or a transport-level error (timeout / connection failure). -/
inductive RlRes
  | ok (allowed : Bool)
  | err
deriving DecidableEq, Repr

/-- One shared-store operation issued while evaluating the policies, with
the result the oracle returned for it (rollbacks are best-effort and carry
no result).  `totalCheck` records the token-bucket parameters of the
call. -/
inductive RlOp
  | successCheck (key entry : String) (res : RlRes)
  | totalCheck (key : String) (capacity rate requested : Int) (res : RlRes)
  | rollback (key entry : String)
deriving DecidableEq, Repr

/-- Consume the next oracle answer (an exhausted oracle answers `ok true`;
the theorems never depend on that default). -/
def nextRes : List RlRes → RlRes × List RlRes
  | [] => (.ok true, [])
  | r :: rs => (r, rs)

/-- The success-count key `rateLimit:model:MRRLS:id:<id>:<shard>`. -/
def successKeyOf (shardCount : Int) (p : ModelRateLimitPolicy) : String :=
  "rateLimit:model:MRRLS:id:" ++ p.identifier ++ ":" ++
    HashShard p.identifier shardCount

/-- The total-count key `rateLimit:model:MRRL:id:<id>:<shard>`. -/
def totalKeyOf (shardCount : Int) (p : ModelRateLimitPolicy) : String :=
  "rateLimit:model:MRRL:id:" ++ p.identifier ++ ":" ++
    HashShard p.identifier shardCount

/-- `rollbackSuccessRequestWithRetry`: a no-op for an empty entry
(`rollbackSuccessRequest` returns early); otherwise one rollback script
call, retried exactly once if the call itself errors.  Script results
other than errors are accepted silently (best-effort). -/
def rollbackWithRetry (key entry : String) (o : List RlRes) :
    List RlOp × List RlRes :=
  if entry = "" then ([], o)
  else
    let n := nextRes o
    match n.1 with
    | .err => ([.rollback key entry, .rollback key entry], (nextRes n.2).2)
    | .ok _ => ([.rollback key entry], n.2)

/-- Outcome of `checkSingleRedisRateLimit`, abstracting the Go quadruple
`(allowed, message, record, err)`: the two denial messages are distinct
format strings naming the exceeded window. -/
inductive CheckOutcome
  | allowed
  | deniedBySuccess
  | deniedByTotal
  | failed
deriving DecidableEq, Repr

/-- Result of one policy check: outcome, surviving reservation, the trace
of shared-store operations issued, and the remaining oracle. -/
structure CheckResult where
  outcome : CheckOutcome
  record : Option RedisSuccessRecord
  trace : List RlOp
  oracle : List RlRes
deriving DecidableEq, Repr

/-- The total-count phase of `checkSingleRedisRateLimit`: the token-bucket
call with capacity `TotalMaxCount*duration`, rate `TotalMaxCount`, cost
`duration`; on error or denial the policy's own speculative reservation
(`entry`, when present) is rolled back. -/
def checkTotalPhase (p : ModelRateLimitPolicy) (successKey totalKey : String)
    (duration : Int) (entry : String) (o : List RlRes) : CheckResult :=
  if p.totalMaxCount > 0 then
    let n := nextRes o
    let ev := RlOp.totalCheck totalKey (p.totalMaxCount * duration)
      p.totalMaxCount duration n.1
    match n.1 with
    | .err =>
        let rb := rollbackWithRetry successKey entry n.2
        ⟨.failed, none, ev :: rb.1, rb.2⟩
    | .ok allowed =>
        if allowed then
          ⟨.allowed,
            if entry ≠ "" then some ⟨successKey, p.durationMinutes, entry⟩
            else none,
            [ev], n.2⟩
        else
          let rb := rollbackWithRetry successKey entry n.2
          ⟨.deniedByTotal, none, ev :: rb.1, rb.2⟩
  else
    ⟨.allowed,
      if entry ≠ "" then some ⟨successKey, p.durationMinutes, entry⟩ else none,
      [], o⟩

/-- `checkSingleRedisRateLimit` (middleware), against the result oracle:
a policy with `duration <= 0` admits without store traffic; otherwise the
success-count check runs first (speculatively recording a fresh unique
entry `uuid`), then the total-count check. -/
def checkSingleRedisRateLimit (shardCount : Int) (p : ModelRateLimitPolicy)
    (uuid : String) (o : List RlRes) : CheckResult :=
  let duration := p.durationMinutes * 60
  if duration ≤ 0 then ⟨.allowed, none, [], o⟩
  else
    let successKey := successKeyOf shardCount p
    let totalKey := totalKeyOf shardCount p
    if p.successMaxCount > 0 then
      let n := nextRes o
      let ev := RlOp.successCheck successKey uuid n.1
      match n.1 with
      | .err => ⟨.failed, none, [ev], n.2⟩
      | .ok allowed =>
          if allowed then
            let r := checkTotalPhase p successKey totalKey duration uuid n.2
            { r with trace := ev :: r.trace }
          else ⟨.deniedBySuccess, none, [ev], n.2⟩
    else checkTotalPhase p successKey totalKey duration "" o

/-- `rollbackAll` (the closure in `enforceRedisModelRateLimit`): roll back
every accumulated reservation, in creation order. -/
def rollbackAll (records : List RedisSuccessRecord) (o : List RlRes) :
    List RlOp × List RlRes :=
  match records with
  | [] => ([], o)
  | r :: rest =>
      let x := rollbackWithRetry r.successKey r.entrySuffix o
      let y := rollbackAll rest x.2
      (x.1 ++ y.1, y.2)

/-- State of the policy loop of `enforceRedisModelRateLimit`:
`abortStatus` is the HTTP status of `abortWithOpenAiMessage` when the
request was rejected (the downstream handler never runs then). -/
structure EnforceState where
  abortStatus : Option Nat
  records : List RedisSuccessRecord
  trace : List RlOp
  oracle : List RlRes
deriving DecidableEq, Repr

/-- The policy loop of `enforceRedisModelRateLimit`: policies are checked
in order; a script error aborts with 500, a denial with 429, and both
roll back every reservation accumulated from earlier policies. -/
def enforceLoop (shardCount : Int) (uuids : Nat → String) (i : Nat)
    (ps : List ModelRateLimitPolicy) (records : List RedisSuccessRecord)
    (o : List RlRes) : EnforceState :=
  match ps with
  | [] => ⟨none, records, [], o⟩
  | p :: rest =>
      let c := checkSingleRedisRateLimit shardCount p (uuids i) o
      if c.outcome = .failed then
        let rb := rollbackAll records c.oracle
        ⟨some 500, records, c.trace ++ rb.1, rb.2⟩
      else if c.outcome = .allowed then
        let s := enforceLoop shardCount uuids (i + 1) rest
          (records ++ c.record.toList) c.oracle
        { s with trace := c.trace ++ s.trace }
      else
        let rb := rollbackAll records c.oracle
        ⟨some 429, records, c.trace ++ rb.1, rb.2⟩

/-- `enforceRedisModelRateLimit` (middleware): run the policy loop; if it
aborted, the response status is the abort status; otherwise the
downstream handler runs (producing `handlerStatus`) and the surviving
reservations are rolled back exactly when `handlerStatus >= 400`.
Returns the final response status and the full operation trace. -/
def enforceRedisModelRateLimit (shardCount : Int) (uuids : Nat → String)
    (policies : List ModelRateLimitPolicy) (handlerStatus : Nat)
    (o : List RlRes) : Nat × List RlOp :=
  let s := enforceLoop shardCount uuids 0 policies [] o
  match s.abortStatus with
  | some code => (code, s.trace)
  | none =>
      if handlerStatus ≥ 400 then
        let rb := rollbackAll s.records s.oracle
        (handlerStatus, s.trace ++ rb.1)
      else (handlerStatus, s.trace)

/-- The speculative reservations visible in a trace: success-count checks
that were admitted (and therefore recorded their entry). -/
def reservedPairs (tr : List RlOp) : List (String × String) :=
  tr.filterMap fun op =>
    match op with
    | .successCheck k e (.ok true) => some (k, e)
    | _ => none

/-- The rollbacks visible in a trace. -/
def rolledPairs (tr : List RlOp) : List (String × String) :=
  tr.filterMap fun op =>
    match op with
    | .rollback k e => some (k, e)
    | _ => none

/-- Whether an operation is a success-count check. -/
def isSuccessCheckOp : RlOp → Bool
  | .successCheck _ _ _ => true
  | _ => false

/-- Whether an operation is a total-count check. -/
def isTotalCheckOp : RlOp → Bool
  | .totalCheck _ _ _ _ _ => true
  | _ => false

/-- Whether an operation is a check whose script evaluation errored. -/
def isErrOp : RlOp → Bool
  | .successCheck _ _ .err => true
  | .totalCheck _ _ _ _ .err => true
  | _ => false

/-- Whether an operation is a check whose script evaluation denied. -/
def isDenyOp : RlOp → Bool
  | .successCheck _ _ (.ok false) => true
  | .totalCheck _ _ _ _ (.ok false) => true
  | _ => false

/-! ## In-process fallback limiter (common/rate-limit.go)

Sequential semantics: every exported method takes the mutex, so a
sequential trace of calls is exactly a fold over the store.  The store is
Go's `map[string]*[]int64`: key → queue of Unix-second timestamps, oldest
first (`[old <- new]`, appended at the tail). -/

structure MemState where
  store : List (String × List Int)
deriving DecidableEq, Repr

def MemState.empty : MemState := ⟨[]⟩

def memFind (st : MemState) (k : String) : Option (List Int) :=
  (st.store.find? (fun p => p.1 = k)).map (·.2)

def memSet (st : MemState) (k : String) (q : List Int) : MemState :=
  ⟨(k, q) :: st.store.filter (fun p => ¬ p.1 = k)⟩

/-- `InMemoryRateLimiter.checkLocked`: pure admission check, no
recording.  The queue is nonempty whenever its length reaches a positive
`maxRequestNum`, so the `headD` default is never read. -/
def checkLocked (st : MemState) (key : String) (maxRequestNum duration now : Int) :
    Bool :=
  if maxRequestNum ≤ 0 then true
  else
    match memFind st key with
    | some q =>
        if (q.length : Int) < maxRequestNum then true
        else if now - q.headD 0 ≥ duration then true
        else false
    | none => true

/-- `InMemoryRateLimiter.requestLocked`: admission check that also
records the request; when the window is full but the oldest timestamp has
aged out, the oldest is popped and the new one appended. -/
def requestLocked (st : MemState) (key : String) (maxRequestNum duration now : Int) :
    MemState × Bool :=
  match memFind st key with
  | some q =>
      if (q.length : Int) < maxRequestNum then (memSet st key (q ++ [now]), true)
      else if now - q.headD 0 ≥ duration then
        (memSet st key (q.tail ++ [now]), true)
      else (st, false)
  | none => (memSet st key [now], true)

/-- `InMemoryRateLimiter.AllowWithCheck`: the success-count check (no
recording) runs first, then the total-count check (with recording). -/
def AllowWithCheck (st : MemState) (totalKey : String) (totalMax : Int)
    (successKey : String) (successMax duration now : Int) : MemState × Bool :=
  if successMax > 0 ∧ checkLocked st successKey successMax duration now = false
  then (st, false)
  else if totalMax > 0 then requestLocked st totalKey totalMax duration now
  else (st, true)

/-- `memorySuccessRecord` (middleware). -/
structure MemorySuccessRecord where
  successKey : String
  maxCount : Int
  duration : Int
deriving DecidableEq, Repr

/-- The policy loop of `enforceMemoryModelRateLimit`: policies with a
non-positive duration are skipped; the first denial aborts with 429
(counts already recorded by earlier policies stay). -/
def enforceMemoryLoop (st : MemState) (ps : List ModelRateLimitPolicy)
    (now : Int) : MemState × Bool × List MemorySuccessRecord :=
  match ps with
  | [] => (st, true, [])
  | p :: rest =>
      let duration := p.durationMinutes * 60
      if duration ≤ 0 then enforceMemoryLoop st rest now
      else
        let totalKey := "MRRL" ++ p.identifier
        let successKey := "MRRLS" ++ p.identifier
        let r := AllowWithCheck st totalKey p.totalMaxCount successKey
          p.successMaxCount duration now
        if r.2 = false then (r.1, false, [])
        else
          let recs : List MemorySuccessRecord :=
            if p.successMaxCount > 0 then
              [⟨successKey, p.successMaxCount, duration⟩]
            else []
          let s := enforceMemoryLoop r.1 rest now
          (s.1, s.2.1, recs ++ s.2.2)

/-- `enforceMemoryModelRateLimit` (middleware): check all policies; when
admitted and the handler succeeded (`status < 400`), record each success
key.  Requests are instantaneous in this sequential model (the recording
happens at the request's timestamp).  Returns the new store and whether
the request was admitted. -/
def enforceMemoryModelRateLimit (st : MemState)
    (ps : List ModelRateLimitPolicy) (now : Int) (handlerStatus : Nat) :
    MemState × Bool :=
  let r := enforceMemoryLoop st ps now
  if r.2.1 = false then (r.1, false)
  else if handlerStatus < 400 then
    (r.2.2.foldl
      (fun s rec => (requestLocked s rec.successKey rec.maxCount rec.duration now).1)
      r.1, true)
  else (r.1, true)

/-! ## Shared-store path against an explicit store (sequential semantics)

The same middleware functions, this time threading an explicit Redis
store (sliding-window states per key, token-bucket states per key) with
no transport errors — the sequential executable semantics compared with
the in-process fallback in claim C9. -/

structure RedisStore where
  sw : List (String × SWState)
  tb : List (String × TBState)
deriving DecidableEq, Repr

def RedisStore.empty : RedisStore := ⟨[], []⟩

/-- The sliding-window state behind a key (a missing key is an empty
list, as in Redis). -/
def swOf (store : RedisStore) (key : String) : SWState :=
  ((store.sw.find? (fun p => p.1 = key)).map (·.2)).getD SWState.empty

def setSw (store : RedisStore) (key : String) (st : SWState) : RedisStore :=
  { store with sw := (key, st) :: store.sw.filter (fun p => ¬ p.1 = key) }

/-- Run `SlidingWindowWithEntry` against the store. -/
def slidingWindowOn (store : RedisStore) (key : String) (maxRequestNum : Int)
    (windowSeconds : Int) (mode : Nat) (entry : String) (nowMicros : Nat) :
    RedisStore × Bool :=
  let r := SlidingWindowWithEntry (swOf store key) maxRequestNum windowSeconds
    mode entry nowMicros
  (setSw store key r.1, r.2)

/-- Run the token bucket against the store; a missing key is a fresh full
bucket (modelled from the spec, as is `tbAllow`). -/
def tbAllowOn (store : RedisStore) (key : String)
    (capacity rate requested nowSeconds : Int) : RedisStore × Bool :=
  let st := ((store.tb.find? (fun p => p.1 = key)).map (·.2)).getD
    (TBState.fresh capacity nowSeconds)
  let r := tbAllow capacity rate requested st nowSeconds
  ({ store with tb := (key, r.1) :: store.tb.filter (fun p => ¬ p.1 = key) }, r.2)

/-- `checkSingleRedisRateLimit` against the explicit store (error-free
sequential run).  Times: the sliding-window script reads Redis `TIME`
(microseconds); the bucket refills per second. -/
def checkSingleRedisRateLimitOnStore (shardCount : Int) (store : RedisStore)
    (p : ModelRateLimitPolicy) (uuid : String) (nowSeconds : Int) :
    RedisStore × CheckOutcome × Option RedisSuccessRecord :=
  let duration := p.durationMinutes * 60
  if duration ≤ 0 then (store, .allowed, none)
  else
    let successKey := successKeyOf shardCount p
    let totalKey := totalKeyOf shardCount p
    let nowMicros := (nowSeconds * 1000000).toNat
    let afterSuccess : RedisStore × Bool :=
      if p.successMaxCount > 0 then
        slidingWindowOn store successKey p.successMaxCount duration 1 uuid
          nowMicros
      else (store, true)
    if afterSuccess.2 = false then (afterSuccess.1, .deniedBySuccess, none)
    else
      let entry := if p.successMaxCount > 0 then uuid else ""
      if p.totalMaxCount > 0 then
        let t := tbAllowOn afterSuccess.1 totalKey (p.totalMaxCount * duration)
          p.totalMaxCount duration nowSeconds
        if t.2 = false then
          let rb :=
            if entry ≠ "" then
              (slidingWindowOn t.1 successKey 1 1 3 entry nowMicros).1
            else t.1
          (rb, .deniedByTotal, none)
        else
          (t.1, .allowed,
            if entry ≠ "" then some ⟨successKey, p.durationMinutes, entry⟩
            else none)
      else
        (afterSuccess.1, .allowed,
          if entry ≠ "" then some ⟨successKey, p.durationMinutes, entry⟩
          else none)

/-- Roll back a list of reservations against the store. -/
def rollbackAllOnStore (store : RedisStore)
    (records : List RedisSuccessRecord) (nowMicros : Nat) : RedisStore :=
  records.foldl
    (fun s r => (slidingWindowOn s r.successKey 1 1 3 r.entrySuffix nowMicros).1)
    store

/-- The policy loop of `enforceRedisModelRateLimit` against the store. -/
def enforceRedisLoopOnStore (shardCount : Int) (store : RedisStore)
    (ps : List ModelRateLimitPolicy) (uuids : Nat → String) (i : Nat)
    (records : List RedisSuccessRecord) (nowSeconds : Int) :
    RedisStore × Bool × List RedisSuccessRecord :=
  match ps with
  | [] => (store, true, records)
  | p :: rest =>
      let c := checkSingleRedisRateLimitOnStore shardCount store p (uuids i)
        nowSeconds
      match c.2.1 with
      | .allowed =>
          enforceRedisLoopOnStore shardCount c.1 rest uuids (i + 1)
            (records ++ c.2.2.toList) nowSeconds
      | _ =>
          (rollbackAllOnStore c.1 records (nowSeconds * 1000000).toNat,
            false, records)

/-- `enforceRedisModelRateLimit` against the explicit store: admitted
requests roll their reservations back exactly when the handler status is
`>= 400`. -/
def enforceRedisModelRateLimitOnStore (shardCount : Int) (store : RedisStore)
    (ps : List ModelRateLimitPolicy) (uuids : Nat → String)
    (nowSeconds : Int) (handlerStatus : Nat) : RedisStore × Bool :=
  let r := enforceRedisLoopOnStore shardCount store ps uuids 0 [] nowSeconds
  if r.2.1 = false then (r.1, false)
  else if handlerStatus ≥ 400 then
    (rollbackAllOnStore r.1 r.2.2 (nowSeconds * 1000000).toNat, true)
  else (r.1, true)

/-- Run a sequential request trace (arrival time in Unix seconds, final
handler status) through the shared-store path, collecting admissions.
`uuids j i` is the unique entry of request `j`, policy `i`. -/
def runRedisTrace (shardCount : Int) (ps : List ModelRateLimitPolicy)
    (uuids : Nat → Nat → String) (store : RedisStore) (j : Nat)
    (reqs : List (Nat × Nat)) : RedisStore × List Bool :=
  match reqs with
  | [] => (store, [])
  | (t, status) :: rest =>
      let r := enforceRedisModelRateLimitOnStore shardCount store ps
        (uuids j) (t : Int) status
      let s := runRedisTrace shardCount ps uuids r.1 (j + 1) rest
      (s.1, r.2 :: s.2)

/-- Run the same sequential request trace through the in-process
fallback. -/
def runMemoryTrace (ps : List ModelRateLimitPolicy) (st : MemState)
    (reqs : List (Nat × Nat)) : MemState × List Bool :=
  match reqs with
  | [] => (st, [])
  | (t, status) :: rest =>
      let r := enforceMemoryModelRateLimit st ps (t : Int) status
      let s := runMemoryTrace ps r.1 rest
      (s.1, r.2 :: s.2)

/-! ## Request-fingerprint parse cache (middleware/distributor.go)

Sequential semantics of the `sync.Map`-backed cache: the map is an
association list with unique keys, the atomic entry counter equals the map
size (no concurrent drift), and the `CompareAndSwap` loops of the Go code
degenerate to plain replacement. -/

/-- `modelRequestCacheEntry`: a parsed routing decision plus its absolute
expiry timestamp (Unix nanoseconds). -/
structure ModelRequestCacheEntry where
  model : String
  group : String
  shouldSelectChannel : Bool
  relayMode : Int
  relayModeSet : Bool
  platform : String
  tokenGroup : String
  tokenGroupSet : Bool
  expireAtUnixNanoTime : Int
deriving DecidableEq, Repr

/-- The configuration knobs the cache reads from the environment
(`ROUTING_PARSE_CACHE_*`), plus `ratio_setting.CompactModelSuffix`. -/
structure RoutingCacheConfig where
  ttlNanos : Int
  warmModels : List String
  compactSuffix : String
  maxEntries : Int
  cleanupIntervalNanos : Int
deriving DecidableEq, Repr

/-- Cache state: entries (unique keys) and the last-cleanup stamp. -/
structure RoutingCacheState where
  entries : List (String × ModelRequestCacheEntry)
  lastCleanupNanos : Int
deriving DecidableEq, Repr

def cacheFind (st : RoutingCacheState) (k : String) :
    Option ModelRequestCacheEntry :=
  (st.entries.find? (fun p => p.1 = k)).map (·.2)

def cacheInsert (st : RoutingCacheState) (k : String)
    (e : ModelRequestCacheEntry) : RoutingCacheState :=
  { st with entries := (k, e) :: st.entries.filter (fun p => ¬ p.1 = k) }

def cacheDelete (st : RoutingCacheState) (k : String) : RoutingCacheState :=
  { st with entries := st.entries.filter (fun p => ¬ p.1 = k) }

/-- `isModelRequestWarmModel`: membership in the warm set after trimming
the compact-model suffix. -/
def isModelRequestWarmModel (cfg : RoutingCacheConfig) (modelName : String) :
    Bool :=
  if modelName = "" then false
  else
    let trimmed :=
      if cfg.compactSuffix.data.isSuffixOf modelName.data then
        String.mk (modelName.data.take
          (modelName.data.length - cfg.compactSuffix.data.length))
      else modelName
    trimmed ∈ cfg.warmModels

/-- `modelRequestCacheTTLForModel`: warm models get three times the
configured TTL. -/
def modelRequestCacheTTLForModel (cfg : RoutingCacheConfig)
    (modelName : String) : Int :=
  if isModelRequestWarmModel cfg modelName then cfg.ttlNanos * 3
  else cfg.ttlNanos

/-- The sweep body of `maybeCleanupModelRequestCache`: drop every entry
already expired at `nowNanos` and stamp the cleanup time. -/
def cleanupModelRequestCache (st : RoutingCacheState) (nowNanos : Int) :
    RoutingCacheState :=
  { entries := st.entries.filter (fun p => ¬ nowNanos > p.2.expireAtUnixNanoTime),
    lastCleanupNanos := nowNanos }

/-- `maybeCleanupModelRequestCache`: unless forced, the sweep is skipped
inside the cleanup interval (the concurrent-runner guard always acquires
in this sequential model). -/
def maybeCleanupModelRequestCache (cfg : RoutingCacheConfig)
    (st : RoutingCacheState) (force : Bool) (nowNanos : Int) :
    RoutingCacheState :=
  if ¬ force ∧ st.lastCleanupNanos > 0 ∧
      nowNanos - st.lastCleanupNanos < cfg.cleanupIntervalNanos then st
  else cleanupModelRequestCache st nowNanos

/-- `getModelRequestCache`: resolve a cache key at time `nowNanos`; an
expired entry is deleted and reported as a miss. -/
def getModelRequestCache (cfg : RoutingCacheConfig) (st : RoutingCacheState)
    (cacheKey : String) (nowNanos : Int) :
    RoutingCacheState × Option ModelRequestCacheEntry :=
  if cacheKey = "" then (st, none)
  else
    let st1 := maybeCleanupModelRequestCache cfg st false nowNanos
    match cacheFind st1 cacheKey with
    | none => (st1, none)
    | some e =>
        if nowNanos > e.expireAtUnixNanoTime then (cacheDelete st1 cacheKey, none)
        else (st1, some e)

/-- `setModelRequestCache`: stamp the expiry from the model-dependent TTL
and insert; at the entry ceiling a forced sweep runs first, and the insert
is dropped when the cache is still full afterwards. -/
def setModelRequestCache (cfg : RoutingCacheConfig) (st : RoutingCacheState)
    (cacheKey : String) (e : ModelRequestCacheEntry) (nowNanos : Int) :
    RoutingCacheState :=
  if cacheKey = "" then st
  else
    let st1 := maybeCleanupModelRequestCache cfg st false nowNanos
    let stamped :=
      { e with expireAtUnixNanoTime :=
          nowNanos + modelRequestCacheTTLForModel cfg e.model }
    if (st1.entries.length : Int) ≥ cfg.maxEntries then
      let st2 := maybeCleanupModelRequestCache cfg st1 true nowNanos
      if (st2.entries.length : Int) ≥ cfg.maxEntries then st2
      else cacheInsert st2 cacheKey stamped
    else cacheInsert st1 cacheKey stamped

/-! ## Policy merge of `ModelRequestRateLimit` (system × token override) -/

/-- The effective base policy computed by `ModelRequestRateLimit` before
any IP-based extension. -/
structure EffectiveBasePolicy where
  durationMinutes : Int
  totalMaxCount : Int
  successMaxCount : Int
  hasBaseLimit : Bool
deriving DecidableEq, Repr

/-- The system + token merge of `ModelRequestRateLimit`: system values
(after any group override) are the base; when the token override is
enabled, each field independently moves to the token value when that
value is positive and either the base is 0 (unlimited) or the token value
is smaller. -/
def mergeBaseRateLimit (systemEnabled tokenRateLimitEnabled : Bool)
    (sysDurationMinutes sysTotal sysSuccess : Int)
    (groupOverride : Option (Int × Int))
    (tokDurationMinutes tokTotal tokSuccess : Int) : EffectiveBasePolicy :=
  let sysD := if systemEnabled then sysDurationMinutes else 0
  let sysT :=
    if systemEnabled then
      match groupOverride with
      | some g => g.1
      | none => sysTotal
    else 0
  let sysS :=
    if systemEnabled then
      match groupOverride with
      | some g => g.2
      | none => sysSuccess
    else 0
  let hasBase := sysT > 0 ∨ sysS > 0
  if tokenRateLimitEnabled then
    { durationMinutes :=
        if tokDurationMinutes > 0 ∧ (sysD = 0 ∨ tokDurationMinutes < sysD)
        then tokDurationMinutes else sysD,
      totalMaxCount :=
        if tokTotal > 0 ∧ (sysT = 0 ∨ tokTotal < sysT) then tokTotal else sysT,
      successMaxCount :=
        if tokSuccess > 0 ∧ (sysS = 0 ∨ tokSuccess < sysS) then tokSuccess
        else sysS,
      hasBaseLimit := decide (hasBase ∨ tokTotal > 0 ∨ tokSuccess > 0) }
  else
    { durationMinutes := sysD, totalMaxCount := sysT, successMaxCount := sysS,
      hasBaseLimit := decide hasBase }

/-- The spec's wording of the merge: for one field, the stricter (smaller
positive) of the system and token values, `0` meaning no limit from that
side.  Stated for comparison with `mergeBaseRateLimit` (claim C6). -/
def stricterLimit (sys tok : Int) : Int :=
  if sys = 0 then tok
  else if tok = 0 then sys
  else min sys tok

/-! ## Auxiliary definitions for the theorems -/

/-- One invocation of the sliding-window script in a call sequence on one
key (the maximum request count is fixed across the sequence). -/
structure SWCall where
  windowSeconds : Int
  mode : Nat
  entry : String
  nowMicros : Nat
deriving DecidableEq, Repr

/-- Run a sequence of script invocations on one key. -/
def runSWCalls (maxRequests : Int) (st : SWState) (calls : List SWCall) :
    SWState :=
  calls.foldl
    (fun s c => (swScript s maxRequests c.windowSeconds c.mode c.entry
      c.nowMicros).1) st

/-- Number of requests the token bucket admits along a list of arrival
times. -/
def tbCountAdmitted (capacity rate requested : Int) (st : TBState) :
    List Int → Nat
  | [] => 0
  | now :: rest =>
      let r := tbAllow capacity rate requested st now
      (if r.2 then 1 else 0) + tbCountAdmitted capacity rate requested r.1 rest

/-- Admission pattern of a same-instant burst against a window with `a`
free slots: the first `a` requests are admitted, the rest rejected. -/
def burstPattern (n a : Nat) : List Bool :=
  List.replicate (min n a) true ++ List.replicate (n - a) false

/-! ## Helper lemmas -/

theorem data_ne_nil_of_ne_empty {s : String} (h : s ≠ "") : s.data ≠ [] := by
  intro hd; apply h; cases s; simp_all

theorem timeStr_contains_dot (t : Nat) : '.' ∈ (timeStr t).data := by
  unfold timeStr
  rw [String.data_append, String.data_append]
  exact List.mem_append_left _ (List.mem_append_right _ (by simp))

theorem entryRaw_contains_dot (e : SWEntry) : '.' ∈ (entryRaw e).data := by
  unfold entryRaw
  split
  · exact timeStr_contains_dot e.time
  · rw [String.data_append, String.data_append]
    exact List.mem_append_left _ (List.mem_append_left _ (timeStr_contains_dot e.time))

theorem entryRaw_ne_of_wf (e : SWEntry) {tok : String} (h : WfToken tok) :
    entryRaw e ≠ tok := by
  intro heq
  exact h.2.1 (heq ▸ entryRaw_contains_dot e)

theorem lastSuffixAux_append (rb rest acc : List Char)
    (hnd : '-' ∉ rb) (hne : rb.reverse ++ acc ≠ []) (hrest : rest ≠ []) :
    lastSuffixAux (rb ++ '-' :: rest) acc = some (rb.reverse ++ acc) := by
  induction rb generalizing acc with
  | nil =>
      simp only [List.nil_append, List.reverse_nil] at *
      unfold lastSuffixAux
      rw [if_pos ⟨rfl, hne, hrest⟩]
  | cons c cs ih =>
      have hc : c ≠ '-' := fun h => hnd (h ▸ List.mem_cons_self c cs)
      have hnd' : '-' ∉ cs := fun h => hnd (List.mem_cons_of_mem _ h)
      simp only [List.cons_append]
      unfold lastSuffixAux
      rw [if_neg (by simp [hc])]
      rw [ih (c :: acc) hnd' (by simp)]
      simp

theorem luaDashSuffix_entryRaw {t : Nat} {s : String} (hwf : WfToken s) :
    luaDashSuffix (entryRaw ⟨t, s⟩) = some s := by
  simp only [luaDashSuffix, entryRaw]
  rw [if_neg hwf.1]
  have hdata : (timeStr t ++ "-" ++ s).data =
      (timeStr t).data ++ '-' :: s.data := by
    rw [String.data_append, String.data_append]
    simp
  rw [hdata, List.reverse_append]
  have hrw : (('-' :: s.data).reverse) = s.data.reverse ++ ['-'] := by simp
  rw [hrw, List.append_assoc]
  have hts : (timeStr t).data.reverse ≠ [] := by
    simp only [ne_eq, List.reverse_eq_nil_iff]
    intro h
    exact absurd (timeStr_contains_dot t) (by simp [h])
  rw [show (['-'] ++ (timeStr t).data.reverse : List Char) =
      '-' :: (timeStr t).data.reverse from rfl]
  rw [lastSuffixAux_append _ _ _ (by simpa using hwf.2.2) (by
        simp only [List.reverse_reverse, List.append_nil]
        exact data_ne_nil_of_ne_empty hwf.1) hts]
  simp

theorem lremFirst_cons (a : SWEntry) (as : List SWEntry) (p : SWEntry → Bool) :
    lremFirst (a :: as) p =
      if p a then (as, 1)
      else (a :: (lremFirst as p).1, (lremFirst as p).2) := rfl

theorem lremFirst_nomatch {l : List SWEntry} {p : SWEntry → Bool}
    (h : ∀ a ∈ l, p a = false) : lremFirst l p = (l, 0) := by
  induction l with
  | nil => rfl
  | cons a as ih =>
      rw [lremFirst_cons, if_neg (by simp [h a (List.mem_cons_self a as)])]
      rw [ih (fun a ha => h a (List.mem_cons_of_mem _ ha))]

theorem lremFirst_snd_zero {l : List SWEntry} {p : SWEntry → Bool}
    (h : (lremFirst l p).2 = 0) : (lremFirst l p).1 = l := by
  induction l with
  | nil => rfl
  | cons a as ih =>
      rw [lremFirst_cons] at h ⊢
      by_cases hp : p a
      · rw [if_pos hp] at h; simp at h
      · rw [if_neg hp] at h ⊢
        simp only at h ⊢
        rw [ih h]

theorem lremFirst_length_le (l : List SWEntry) (p : SWEntry → Bool) :
    (lremFirst l p).1.length ≤ l.length := by
  induction l with
  | nil => simp [lremFirst]
  | cons a as ih =>
      rw [lremFirst_cons]
      by_cases hp : p a
      · rw [if_pos hp]; simp
      · rw [if_neg hp]; simpa using ih

theorem lremFirst_length_ge (l : List SWEntry) (p : SWEntry → Bool) :
    l.length ≤ (lremFirst l p).1.length + 1 := by
  induction l with
  | nil => simp [lremFirst]
  | cons a as ih =>
      rw [lremFirst_cons]
      by_cases hp : p a
      · rw [if_pos hp]; simp
      · rw [if_neg hp]; simpa using ih

theorem lremFirst_mem {l : List SWEntry} {fe : SWEntry} (h : fe ∈ l) :
    (lremFirst l (fun e => e = fe)).2 = 1 ∧
    (lremFirst l (fun e => e = fe)).1.length + 1 = l.length := by
  induction l with
  | nil => simp at h
  | cons a as ih =>
      rw [lremFirst_cons]
      by_cases ha : a = fe
      · rw [if_pos (by simp [ha])]
        exact ⟨rfl, rfl⟩
      · have hfe : fe ∈ as := by
          rcases List.mem_cons.1 h with h' | h'
          · exact absurd h'.symm ha
          · exact h'
        rw [if_neg (by simp [ha])]
        have := ih hfe
        exact ⟨this.1, by simpa using this.2⟩

theorem hget_hdel (idx : List (String × SWEntry)) (k : String) :
    hget (hdel idx k) k = none := by
  unfold hget hdel
  rw [Option.map_eq_none']
  rw [List.find?_eq_none]
  intro p hp
  have := List.of_mem_filter hp
  simpa using this

/-! ## Claim theorems -/

/-- C8: `HashShard` is deterministic — the shard depends only on the pair
`(id, shardCount)` — and every identifier lands on shard `"0"` when the
shard count is 1. -/
theorem hashShard_deterministic_and_unit_shard :
    (∀ (id₁ id₂ : String) (k₁ k₂ : Int), id₁ = id₂ → k₁ = k₂ →
      HashShard id₁ k₁ = HashShard id₂ k₂) ∧
    (∀ id : String, HashShard id 1 = "0") := by
  constructor
  · intro id₁ id₂ k₁ k₂ h1 h2
    rw [h1, h2]
  · intro id
    unfold HashShard
    rw [if_pos (by omega)]

/-- Witness for C8 at concrete inputs. -/
theorem hashShard_deterministic_and_unit_shard_witness :
    HashShard "token-42" 1 = "0" ∧
    HashShard "token-42" 16 = HashShard "token-42" 16 :=
  ⟨hashShard_deterministic_and_unit_shard.2 "token-42",
    hashShard_deterministic_and_unit_shard.1 "token-42" "token-42" 16 16 rfl rfl⟩

/-- C2: in a checking mode (0 = check, 1 = check-and-record) with positive
`maxRequests` and `windowSeconds`, the sliding-window script admits
(returns 1) exactly when the structure holds fewer than `maxRequests`
entries, or the oldest entry (the tail of the list) is at least the window
older than the current time. -/
theorem swScript_check_admission (st : SWState) (maxC w : Int) (mode : Nat)
    (entry : String) (now : Nat) (hmax : 0 < maxC) (hw : 0 < w)
    (hmode : mode = 0 ∨ mode = 1) :
    ((swScript st maxC w mode entry now).2 = 1 ↔
      ((st.list.length : Int) < maxC ∨
        ∃ o, st.list.getLast? = some o ∧
          (o.time : Int) + w * 1000000 ≤ (now : Int))) := by
  have h3 : ¬ mode = 3 := by rcases hmode with h | h <;> omega
  unfold swScript
  rw [if_neg h3, if_neg (by omega : ¬ maxC ≤ 0), if_neg (by omega : ¬ w ≤ 0)]
  simp only
  by_cases hlen : (st.list.length : Int) ≥ maxC
  · have hne : st.list ≠ [] := by
      intro hnil
      rw [hnil] at hlen
      simp at hlen
      omega
    obtain ⟨o, ho⟩ : ∃ o, st.list.getLast? = some o :=
      Option.isSome_iff_exists.1 (List.getLast?_isSome.2 hne)
    rw [if_pos hlen, ho]
    rcases hmode with rfl | rfl <;>
      by_cases hcmp : (now : Int) - (o.time : Int) < w * 1000000 <;>
        simp only [hcmp, if_true, if_false, Option.some.injEq] <;>
          simp <;> omega
  · rw [if_neg hlen]
    rcases hmode with rfl | rfl <;> simp <;> omega

/-- Witness for C2: a window of capacity 1 holding one fresh entry rejects
a check at the same instant. -/
theorem swScript_check_admission_witness :
    (0 : Int) < 1 ∧ (0 : Int) < 60 ∧ ((0 : Nat) = 0 ∨ (0 : Nat) = 1) ∧
    ((swScript ⟨[⟨5, "a"⟩], [("a", ⟨5, "a"⟩)]⟩ 1 60 0 "" 6).2 = 1 ↔
      (((⟨[⟨5, "a"⟩], [("a", ⟨5, "a"⟩)]⟩ : SWState).list.length : Int) < 1 ∨
        ∃ o, (⟨[⟨5, "a"⟩], [("a", ⟨5, "a"⟩)]⟩ : SWState).list.getLast? = some o ∧
          (o.time : Int) + 60 * 1000000 ≤ (6 : Nat))) :=
  ⟨by norm_num, by norm_num, Or.inl rfl,
    swScript_check_admission _ 1 60 0 "" 6 (by norm_num) (by norm_num)
      (Or.inl rfl)⟩

theorem pushTrim_length_le (st : SWState) (entry : SWEntry) (maxC : Int)
    (listLen : Nat) : (pushTrim st entry maxC listLen).list.length ≤ maxC.toNat := by
  unfold pushTrim
  simp only
  split
  · split <;> simp [List.length_take]
  · simp [List.length_take]

theorem swScript_length_le (st : SWState) (maxC w : Int) (mode : Nat)
    (entry : String) (now : Nat) (hmax : 0 < maxC)
    (hst : st.list.length ≤ maxC.toNat) :
    (swScript st maxC w mode entry now).1.list.length ≤ maxC.toNat := by
  unfold swScript
  by_cases h3 : mode = 3
  · rw [if_pos h3]
    by_cases hce : entry ≠ ""
    · rw [if_pos hce]
      simp only
      split
      · split
        · split <;>
            exact le_trans (lremFirst_length_le _ _) hst
        · exact hst
      · exact le_trans (lremFirst_length_le _ _) hst
    · rw [if_neg hce]
      exact hst
  · rw [if_neg h3, if_neg (by omega : ¬ maxC ≤ 0)]
    by_cases hw : w ≤ 0
    · rw [if_pos hw]; exact hst
    · rw [if_neg hw]
      simp only
      repeat' split
      all_goals first
        | exact pushTrim_length_le _ _ _ _
        | exact hst

/-- C3: starting from an empty key, after every prefix of any sequence of
sliding-window script invocations with a fixed positive `maxRequests` — in
any order, any mixture of modes, windows, entries and times — the window
structure holds at most `maxRequests` live entries. -/
theorem swScript_capacity_invariant (maxC : Int) (hmax : 0 < maxC)
    (calls : List SWCall) (n : Nat) :
    ((runSWCalls maxC SWState.empty (calls.take n)).list.length : Int) ≤ maxC := by
  suffices h : ∀ (cs : List SWCall) (st : SWState),
      st.list.length ≤ maxC.toNat →
      (runSWCalls maxC st cs).list.length ≤ maxC.toNat by
    have := h (calls.take n) SWState.empty (by simp [SWState.empty])
    omega
  intro cs
  induction cs with
  | nil => intro st hst; exact hst
  | cons c rest ih =>
      intro st hst
      exact ih _ (swScript_length_le st maxC c.windowSeconds c.mode c.entry
        c.nowMicros hmax hst)

/-- Witness for C3 at a concrete call sequence. -/
theorem swScript_capacity_invariant_witness :
    (0 : Int) < 2 ∧
    ((runSWCalls 2 SWState.empty
        ([⟨60, 1, "a", 10⟩, ⟨60, 2, "b", 20⟩, ⟨60, 2, "c", 30⟩,
          ⟨60, 1, "d", 40⟩].take 4)).list.length : Int) ≤ 2 :=
  ⟨by norm_num,
    swScript_capacity_invariant 2 (by norm_num)
      [⟨60, 1, "a", 10⟩, ⟨60, 2, "b", 20⟩, ⟨60, 2, "c", 30⟩, ⟨60, 1, "d", 40⟩] 4⟩

/-- Evaluation of the rollback mode of the script under a well-formed
token: the raw `LREM` by the bare token never matches (every entry string
contains a `'.'`), so the script always goes through the index. -/
theorem swScript_rollback_eval (st : SWState) {tok : String} (m w : Int)
    (now : Nat) (hwf : WfToken tok) :
    swScript st m w 3 tok now =
      match hget st.idx tok with
      | some fe =>
          let r := lremFirst st.list (fun e => e = fe)
          if r.2 > 0 then
            ({ list := r.1, idx := deleteIndexByRaw st.idx (entryRaw fe) }, 1)
          else ({ list := r.1, idx := st.idx }, 0)
      | none => (st, 0) := by
  unfold swScript
  rw [if_pos rfl, if_pos hwf.1]
  have hmiss : lremFirst st.list (fun e => entryRaw e = tok) = (st.list, 0) :=
    lremFirst_nomatch (fun a _ => by simp [entryRaw_ne_of_wf a hwf])
  rw [hmiss]
  show (if (0 : Nat) = 0 then _ else _) = _
  rw [if_pos rfl]

/-- C10: the no-limit bypass of `SlidingWindowWithEntry` skips the script
and admits for every non-rollback mode with degenerate parameters, while a
rollback-mode call still reaches the script: under degenerate parameters a
rollback still removes the indexed entry. -/
theorem slidingWindowWithEntry_bypass_vs_rollback :
    (∀ (st : SWState) (maxR w : Int) (mode : Nat) (entry : String) (now : Nat),
      mode ≠ 3 → (maxR ≤ 0 ∨ w ≤ 0) →
      SlidingWindowWithEntry st maxR w mode entry now = (st, true)) ∧
    (∀ (st : SWState) (maxR w : Int) (tok : String) (now : Nat) (fe : SWEntry),
      WfToken tok → hget st.idx tok = some fe → fe ∈ st.list →
      ((SlidingWindowWithEntry st maxR w 3 tok now).1).list.length + 1 =
        st.list.length ∧ (SlidingWindowWithEntry st maxR w 3 tok now).2 = true) := by
  constructor
  · intro st maxR w mode entry now hmode hdeg
    unfold SlidingWindowWithEntry
    rw [if_pos ⟨hmode, hdeg⟩]
  · intro st maxR w tok now fe hwf hg hm
    unfold SlidingWindowWithEntry
    rw [if_neg (by simp)]
    rw [swScript_rollback_eval st maxR w now hwf, hg]
    have hmem := lremFirst_mem hm
    have hpos : (lremFirst st.list fun e => decide (e = fe)).2 > 0 := by omega
    simp only [decide_eq_true_eq]
    rw [if_pos hpos]
    exact ⟨hmem.2, rfl⟩

/-- Witness for C10: concrete degenerate-parameter bypass and a concrete
rollback that still removes the entry. -/
theorem slidingWindowWithEntry_bypass_vs_rollback_witness :
    (SlidingWindowWithEntry ⟨[⟨5, "ab"⟩], [("ab", ⟨5, "ab"⟩)]⟩ 0 0 1 "x" 9 =
      (⟨[⟨5, "ab"⟩], [("ab", ⟨5, "ab"⟩)]⟩, true)) ∧
    ((SlidingWindowWithEntry ⟨[⟨5, "ab"⟩], [("ab", ⟨5, "ab"⟩)]⟩ 0 0 3 "ab" 9).1.list.length + 1 =
      (⟨[⟨5, "ab"⟩], [("ab", ⟨5, "ab"⟩)]⟩ : SWState).list.length) :=
  ⟨slidingWindowWithEntry_bypass_vs_rollback.1
      ⟨[⟨5, "ab"⟩], [("ab", ⟨5, "ab"⟩)]⟩ 0 0 1 "x" 9 (by omega)
      (Or.inl (by norm_num)),
    (slidingWindowWithEntry_bypass_vs_rollback.2
      ⟨[⟨5, "ab"⟩], [("ab", ⟨5, "ab"⟩)]⟩ 0 0 "ab" 9 ⟨5, "ab"⟩
      (by decide) (by decide) (by simp)).1⟩

theorem hget_some_mem {idx : List (String × SWEntry)} {tok : String}
    {fe : SWEntry} (hg : hget idx tok = some fe) :
    ∃ p, p ∈ idx ∧ p.1 = tok ∧ p.2 = fe := by
  unfold hget at hg
  rcases hfind : idx.find? (fun p => p.1 = tok) with _ | p
  · rw [hfind] at hg; simp at hg
  · rw [hfind] at hg
    simp only [Option.map_some'] at hg
    refine ⟨p, List.mem_of_find?_eq_some hfind, ?_, by injection hg⟩
    have := List.find?_some hfind
    simpa using this

/-- C4: rollback idempotence.  Under the index invariant (every index
binding maps a token to an entry carrying that token — which is how the
record modes write the index), rolling back the same well-formed token
twice leaves the state of the first rollback untouched and reports 0 (the
caller treats any non-error script reply as success), the two calls
remove at most one entry in total, and a rollback whose token is absent
from the index is a no-op success. -/
theorem swScript_rollback_idempotent (st : SWState) (tok : String)
    (m w m2 w2 : Int) (now now2 : Nat) (hwf : WfToken tok)
    (hinv : ∀ p ∈ st.idx, p.2.suffix = p.1) :
    (swScript (swScript st m w 3 tok now).1 m2 w2 3 tok now2 =
      ((swScript st m w 3 tok now).1, 0)) ∧
    st.list.length ≤ (swScript st m w 3 tok now).1.list.length + 1 ∧
    ((∀ p ∈ st.idx, p.1 ≠ tok) → swScript st m w 3 tok now = (st, 0)) := by
  cases hg : hget st.idx tok with
  | none =>
      have key : ∀ (m' w' : Int) (now' : Nat),
          swScript st m' w' 3 tok now' = (st, 0) := by
        intro m' w' now'
        rw [swScript_rollback_eval st m' w' now' hwf, hg]
      refine ⟨?_, ?_, fun _ => key m w now⟩
      · rw [key m w now]
        exact key m2 w2 now2
      · rw [key m w now]
        exact Nat.le_succ _
  | some fe =>
      obtain ⟨p, hpmem, hp1, hp2⟩ := hget_some_mem hg
      obtain ⟨ft, fs⟩ := fe
      have hsuf : fs = tok := by
        have := hinv p hpmem
        rw [hp2] at this
        rw [← hp1, ← this]
      subst hsuf
      by_cases hr2 : (lremFirst st.list fun e => decide (e = ⟨ft, fs⟩)).2 > 0
      · have hdix : deleteIndexByRaw st.idx (entryRaw ⟨ft, fs⟩) = hdel st.idx fs := by
          unfold deleteIndexByRaw
          rw [luaDashSuffix_entryRaw hwf]
        have h1 : swScript st m w 3 fs now =
            (⟨(lremFirst st.list fun e => decide (e = ⟨ft, fs⟩)).1,
              hdel st.idx fs⟩, 1) := by
          rw [swScript_rollback_eval st m w now hwf, hg]
          simp only
          rw [if_pos hr2, hdix]
        refine ⟨?_, ?_, ?_⟩
        · rw [h1]
          simp only
          rw [swScript_rollback_eval _ m2 w2 now2 hwf]
          simp only [hget_hdel]
        · rw [h1]
          exact lremFirst_length_ge _ _
        · intro habs
          exact absurd hp1 (habs p hpmem)
      · have hl : (lremFirst st.list fun e => decide (e = ⟨ft, fs⟩)).1 = st.list :=
          lremFirst_snd_zero (by omega)
        have key : ∀ (m' w' : Int) (now' : Nat),
            swScript st m' w' 3 fs now' = (st, 0) := by
          intro m' w' now'
          rw [swScript_rollback_eval st m' w' now' hwf, hg]
          simp only
          rw [if_neg hr2, hl]
        refine ⟨?_, ?_, fun _ => key m w now⟩
        · rw [key m w now]
          exact key m2 w2 now2
        · rw [key m w now]
          exact Nat.le_succ _

/-- Witness for C4 at a concrete state and token. -/
theorem swScript_rollback_idempotent_witness :
    WfToken "ab" ∧
    (∀ p ∈ (⟨[⟨5, "ab"⟩], [("ab", ⟨5, "ab"⟩)]⟩ : SWState).idx, p.2.suffix = p.1) ∧
    (swScript (swScript ⟨[⟨5, "ab"⟩], [("ab", ⟨5, "ab"⟩)]⟩ 1 1 3 "ab" 9).1
        1 1 3 "ab" 10 =
      ((swScript ⟨[⟨5, "ab"⟩], [("ab", ⟨5, "ab"⟩)]⟩ 1 1 3 "ab" 9).1, 0)) :=
  ⟨by decide, by decide,
    (swScript_rollback_idempotent ⟨[⟨5, "ab"⟩], [("ab", ⟨5, "ab"⟩)]⟩ "ab"
      1 1 1 1 9 10 (by decide) (by decide)).1⟩

/-- C6: when both the system policy and the per-token override are
enabled (and no group override applies), the effective base policy takes,
for each field independently — window duration, total count, success
count — the stricter (smaller positive) of the system and token values,
with 0 meaning no limit from that side. -/
theorem mergeBaseRateLimit_stricter (sysD sysT sysS tokD tokT tokS : Int)
    (hD : 0 ≤ sysD) (hT : 0 ≤ sysT) (hS : 0 ≤ sysS)
    (hd : 0 ≤ tokD) (ht : 0 ≤ tokT) (hs : 0 ≤ tokS) :
    (mergeBaseRateLimit true true sysD sysT sysS none tokD tokT tokS).durationMinutes
        = stricterLimit sysD tokD ∧
    (mergeBaseRateLimit true true sysD sysT sysS none tokD tokT tokS).totalMaxCount
        = stricterLimit sysT tokT ∧
    (mergeBaseRateLimit true true sysD sysT sysS none tokD tokT tokS).successMaxCount
        = stricterLimit sysS tokS := by
  unfold mergeBaseRateLimit stricterLimit
  simp only [if_pos rfl, if_true]
  refine ⟨?_, ?_, ?_⟩ <;> (split_ifs <;> omega)

/-- Witness for C6: the spec's example — system `{1min, total 100,
success 1000}` with token override `{1min, total 10, success 0}` yields
the effective policy `{1min, total 10, success 1000}`. -/
theorem mergeBaseRateLimit_stricter_witness :
    (mergeBaseRateLimit true true 1 100 1000 none 1 10 0).durationMinutes = 1 ∧
    (mergeBaseRateLimit true true 1 100 1000 none 1 10 0).totalMaxCount = 10 ∧
    (mergeBaseRateLimit true true 1 100 1000 none 1 10 0).successMaxCount = 1000 := by
  have h := mergeBaseRateLimit_stricter 1 100 1000 1 10 0
    (by norm_num) (by norm_num) (by norm_num) (by norm_num) (by norm_num)
    (by norm_num)
  exact ⟨h.1.trans (by norm_num [stricterLimit]),
    h.2.1.trans (by norm_num [stricterLimit]),
    h.2.2.trans (by norm_num [stricterLimit])⟩

theorem maybeCleanup_length_le (cfg : RoutingCacheConfig)
    (st : RoutingCacheState) (force : Bool) (now : Int) :
    (maybeCleanupModelRequestCache cfg st force now).entries.length ≤
      st.entries.length := by
  unfold maybeCleanupModelRequestCache cleanupModelRequestCache
  split
  · exact le_refl _
  · exact List.length_filter_le _ _

theorem cacheFind_insert (st : RoutingCacheState) (k : String)
    (e : ModelRequestCacheEntry) : cacheFind (cacheInsert st k e) k = some e := by
  unfold cacheFind cacheInsert
  simp

theorem cacheFind_of_filtered (l : List (String × ModelRequestCacheEntry))
    (k : String) (q : (String × ModelRequestCacheEntry) → Bool) :
    ((l.filter (fun p => ¬ p.1 = k)).filter q).find?
      (fun p => p.1 = k) = none := by
  rw [List.find?_eq_none]
  intro p hp
  have h1 := (List.mem_filter.1 hp).1
  have h2 := (List.mem_filter.1 h1).2
  simpa using h2

/-- The head insert survives one further filter exactly when it satisfies
it; older bindings of the key are gone either way. -/
theorem find_insert_filter (l : List (String × ModelRequestCacheEntry))
    (key : String) (v : ModelRequestCacheEntry)
    (q : (String × ModelRequestCacheEntry) → Bool) :
    (((key, v) :: l.filter (fun p => ¬ p.1 = key)).filter q).find?
        (fun p => p.1 = key) =
      if q (key, v) then some (key, v) else none := by
  rw [List.filter_cons]
  by_cases hq : q (key, v) = true
  · rw [if_pos hq, if_pos hq]
    simp [List.find?]
  · rw [if_neg hq, if_neg (by simpa using hq)]
    exact cacheFind_of_filtered l key q

/-- Evaluation of a resolve for a nonempty key. -/
theorem getModelRequestCache_eval (cfg : RoutingCacheConfig)
    (st : RoutingCacheState) (k : String) (t : Int) (hk : k ≠ "") :
    (getModelRequestCache cfg st k t).2 =
      match cacheFind (maybeCleanupModelRequestCache cfg st false t) k with
      | none => none
      | some e => if t > e.expireAtUnixNanoTime then none else some e := by
  unfold getModelRequestCache
  rw [if_neg hk]
  simp only
  rcases hf : cacheFind (maybeCleanupModelRequestCache cfg st false t) k with _ | e
  · simp
  · by_cases h : t > e.expireAtUnixNanoTime <;> simp [h]

/-- Resolving a key right after a successful insert: found with the
inserted value until its expiry, and a miss after it — whether or not the
read triggers the opportunistic sweep. -/
theorem getModelRequestCache_insert (cfg : RoutingCacheConfig)
    (base : RoutingCacheState) (key : String) (v : ModelRequestCacheEntry)
    (t : Int) (hkey : key ≠ "") :
    (getModelRequestCache cfg (cacheInsert base key v) key t).2 =
      if t > v.expireAtUnixNanoTime then none else some v := by
  rw [getModelRequestCache_eval cfg _ key t hkey]
  unfold maybeCleanupModelRequestCache
  have hfind : cacheFind (cleanupModelRequestCache (cacheInsert base key v) t)
      key = if t > v.expireAtUnixNanoTime then none else some v := by
    unfold cleanupModelRequestCache cacheInsert cacheFind
    simp only
    rw [find_insert_filter]
    by_cases h : t > v.expireAtUnixNanoTime
    · rw [if_neg (by simpa using h), if_pos h]
      rfl
    · rw [if_pos (by simpa using h), if_neg h]
      rfl
  by_cases hskip : (¬ false = true ∧
      (cacheInsert base key v).lastCleanupNanos > 0 ∧
      t - (cacheInsert base key v).lastCleanupNanos < cfg.cleanupIntervalNanos)
  · rw [if_pos hskip, cacheFind_insert]
  · rw [if_neg hskip, hfind]
    by_cases h : t > v.expireAtUnixNanoTime <;> simp [h]

/-- C7 (amended): the round trip holds for a nonempty key stored while the
cache is below its entry ceiling — the stored decision resolves unchanged
until its TTL elapses and misses afterwards — and, unconditionally, a
resolve never returns an entry after its expiry timestamp. -/
theorem cache_roundtrip_amended :
    (∀ (cfg : RoutingCacheConfig) (st : RoutingCacheState) (key : String)
      (e : ModelRequestCacheEntry) (now t : Int),
      key ≠ "" → (st.entries.length : Int) < cfg.maxEntries →
      ((t ≤ now + modelRequestCacheTTLForModel cfg e.model →
        (getModelRequestCache cfg (setModelRequestCache cfg st key e now)
            key t).2 =
          some { e with expireAtUnixNanoTime :=
            now + modelRequestCacheTTLForModel cfg e.model }) ∧
       (t > now + modelRequestCacheTTLForModel cfg e.model →
        (getModelRequestCache cfg (setModelRequestCache cfg st key e now)
            key t).2 = none))) ∧
    (∀ (cfg : RoutingCacheConfig) (st : RoutingCacheState) (k : String)
      (t : Int) (e : ModelRequestCacheEntry),
      (getModelRequestCache cfg st k t).2 = some e →
      t ≤ e.expireAtUnixNanoTime) := by
  constructor
  · intro cfg st key e now t hkey hroom
    have hlen1 : ((maybeCleanupModelRequestCache cfg st false now).entries.length : Int)
        < cfg.maxEntries := by
      have := maybeCleanup_length_le cfg st false now
      have hc : ((maybeCleanupModelRequestCache cfg st false now).entries.length : Int)
          ≤ (st.entries.length : Int) := by exact_mod_cast this
      omega
    have hset : setModelRequestCache cfg st key e now =
        cacheInsert (maybeCleanupModelRequestCache cfg st false now) key
          { e with expireAtUnixNanoTime :=
              now + modelRequestCacheTTLForModel cfg e.model } := by
      unfold setModelRequestCache
      rw [if_neg hkey, if_neg (not_le.2 hlen1)]
    rw [hset]
    constructor
    · intro hle
      rw [getModelRequestCache_insert cfg _ key _ t hkey]
      rw [if_neg (by simpa using hle)]
    · intro hgt
      rw [getModelRequestCache_insert cfg _ key _ t hkey]
      rw [if_pos (by simpa using hgt)]
  · intro cfg st k t e hsome
    by_cases hk : k = ""
    · unfold getModelRequestCache at hsome
      rw [if_pos hk] at hsome
      simp at hsome
    · rw [getModelRequestCache_eval cfg st k t hk] at hsome
      rcases hfind : cacheFind (maybeCleanupModelRequestCache cfg st false t) k
        with _ | e'
      · rw [hfind] at hsome
        simp at hsome
      · rw [hfind] at hsome
        simp only at hsome
        by_cases hexp : t > e'.expireAtUnixNanoTime
        · rw [if_pos hexp] at hsome
          simp at hsome
        · rw [if_neg hexp] at hsome
          injection hsome with h
          subst h
          omega

/-- Witness for C7 (amended) at a concrete state. -/
theorem cache_roundtrip_amended_witness :
    ("k" ≠ "") ∧
    (((⟨[], 1⟩ : RoutingCacheState).entries.length : Int) <
      (⟨10, [], "#", 5, 100⟩ : RoutingCacheConfig).maxEntries) ∧
    ((6 : Int) ≤ 5 + modelRequestCacheTTLForModel ⟨10, [], "#", 5, 100⟩ "m" →
      (getModelRequestCache ⟨10, [], "#", 5, 100⟩
          (setModelRequestCache ⟨10, [], "#", 5, 100⟩ ⟨[], 1⟩ "k"
            ⟨"m", "g", true, 0, false, "p", "t", false, 0⟩ 5) "k" 6).2 =
        some { (⟨"m", "g", true, 0, false, "p", "t", false, 0⟩ :
            ModelRequestCacheEntry) with expireAtUnixNanoTime :=
          5 + modelRequestCacheTTLForModel ⟨10, [], "#", 5, 100⟩ "m" }) :=
  ⟨by decide, by decide,
    ((cache_roundtrip_amended.1 ⟨10, [], "#", 5, 100⟩ ⟨[], 1⟩ "k"
      ⟨"m", "g", true, 0, false, "p", "t", false, 0⟩ 5 6 (by decide)
      (by decide)).1)⟩

/-- C7 (counterexample to the claim as stated): with the entry ceiling
configured at 1 and the cache already holding one live entry, storing a
decision under a fresh key is dropped, so resolving that key immediately
afterwards (well before any TTL) misses — the claim's promise that the
resolve "returns a decision equal to the stored one" fails. -/
theorem cache_roundtrip_counterexample :
    (getModelRequestCache ⟨10, [], "#", 1, 100⟩
      (setModelRequestCache ⟨10, [], "#", 1, 100⟩
        (setModelRequestCache ⟨10, [], "#", 1, 100⟩ ⟨[], 1⟩ "a"
          ⟨"m", "g", true, 0, false, "p", "t", false, 0⟩ 5)
        "b" ⟨"m2", "g", true, 0, false, "p", "t", false, 0⟩ 6) "b" 6).2
      = none := by decide

theorem rollbackWithRetry_ops {k e : String} {o : List RlRes} :
    ∀ ev ∈ (rollbackWithRetry k e o).1, ev = RlOp.rollback k e := by
  intro ev hev
  unfold rollbackWithRetry at hev
  by_cases he : e = ""
  · rw [if_pos he] at hev
    simp at hev
  · rw [if_neg he] at hev
    simp only at hev
    rcases hr : (nextRes o).1 with b | _ <;> rw [hr] at hev <;> simp at hev <;>
      exact hev

theorem checkTotalPhase_totalCheck_params (p : ModelRateLimitPolicy)
    (sk tk : String) (dur : Int) (entry : String) (o : List RlRes) :
    ∀ (k : String) (cap ra rq : Int) (r : RlRes),
    RlOp.totalCheck k cap ra rq r ∈ (checkTotalPhase p sk tk dur entry o).trace →
    cap = p.totalMaxCount * dur ∧ ra = p.totalMaxCount ∧ rq = dur := by
  intro k cap ra rq r hmem
  unfold checkTotalPhase at hmem
  by_cases hpos : p.totalMaxCount > 0
  · rw [if_pos hpos] at hmem
    simp only at hmem
    rcases hr : (nextRes o).1 with b | _
    · rw [hr] at hmem
      cases b
      · simp only at hmem
        rcases List.mem_cons.1 hmem with h | h
        · simp only [RlOp.totalCheck.injEq] at h
          exact ⟨h.2.1, h.2.2.1, h.2.2.2.1⟩
        · have := rollbackWithRetry_ops _ h
          simp at this
      · simp only at hmem
        simp at hmem
        exact ⟨hmem.2.1, hmem.2.2.1, hmem.2.2.2.1⟩
    · rw [hr] at hmem
      simp only at hmem
      rcases List.mem_cons.1 hmem with h | h
      · simp only [RlOp.totalCheck.injEq] at h
        exact ⟨h.2.1, h.2.2.1, h.2.2.2.1⟩
      · have := rollbackWithRetry_ops _ h
        simp at this
  · rw [if_neg hpos] at hmem
    simp at hmem

theorem checkSingle_totalCheck_params (sc : Int) (p : ModelRateLimitPolicy)
    (u : String) (o : List RlRes) :
    ∀ (k : String) (cap ra rq : Int) (r : RlRes),
    RlOp.totalCheck k cap ra rq r ∈ (checkSingleRedisRateLimit sc p u o).trace →
    cap = p.totalMaxCount * (p.durationMinutes * 60) ∧
    ra = p.totalMaxCount ∧ rq = p.durationMinutes * 60 := by
  intro k cap ra rq r hmem
  unfold checkSingleRedisRateLimit at hmem
  by_cases hdur : p.durationMinutes * 60 ≤ 0
  · rw [if_pos hdur] at hmem
    simp at hmem
  · rw [if_neg hdur] at hmem
    simp only at hmem
    by_cases hsmax : p.successMaxCount > 0
    · rw [if_pos hsmax] at hmem
      rcases hr : (nextRes o).1 with b | _
      · rw [hr] at hmem
        cases b
        · simp at hmem
        · simp only at hmem
          rcases List.mem_cons.1 hmem with h | h
          · simp at h
          · exact checkTotalPhase_totalCheck_params p _ _ _ _ _ k cap ra rq r h
      · rw [hr] at hmem
        simp at hmem
    · rw [if_neg hsmax] at hmem
      exact checkTotalPhase_totalCheck_params p _ _ _ _ _ k cap ra rq r hmem

/-- Modelled from the spec: same-instant admissions of the token bucket
with capacity `C*d`, rate `C`, cost `d`, starting from a balance of `m*d`
tokens. -/
theorem tbCount_sameInstant (C d : Int) (hC : 1 ≤ C) (hd : 1 ≤ d) :
    ∀ (n m : Nat) (t : Int), (m : Int) ≤ C →
    tbCountAdmitted (C * d) C d ⟨(m : Int) * d, t⟩ (List.replicate n t) =
      min n m := by
  intro n
  induction n with
  | zero => intro m t _; simp [tbCountAdmitted]
  | succ n ih =>
      intro m t hm
      rw [List.replicate_succ]
      unfold tbCountAdmitted tbAllow
      simp only [sub_self, mul_zero, add_zero]
      have hmin : min (C * d) ((m : Int) * d) = (m : Int) * d :=
        min_eq_right (mul_le_mul_of_nonneg_right hm (by omega))
      rw [hmin]
      cases m with
      | zero =>
          simp only [Nat.cast_zero, zero_mul]
          rw [if_neg (by omega : ¬ d ≤ 0)]
          have h0 := ih 0 t (by exact_mod_cast (show (0 : Int) ≤ C by omega))
          simp only [Nat.cast_zero, zero_mul] at h0
          show (0 : Nat) + tbCountAdmitted (C * d) C d ⟨0, t⟩
            (List.replicate n t) = min (n + 1) 0
          rw [h0]
          omega
      | succ k =>
          have hadm : d ≤ ((k + 1 : Nat) : Int) * d := by
            calc d = 1 * d := (one_mul d).symm
            _ ≤ ((k + 1 : Nat) : Int) * d :=
              mul_le_mul_of_nonneg_right (by push_cast; omega) (by omega)
          rw [if_pos hadm]
          show (1 : Nat) + tbCountAdmitted (C * d) C d
            ⟨((k + 1 : Nat) : Int) * d - d, t⟩ (List.replicate n t) =
            min (n + 1) (k + 1)
          have htok : ((k + 1 : Nat) : Int) * d - d = (k : Int) * d := by
            push_cast
            ring
          rw [htok]
          have hk : (k : Int) ≤ C := by push_cast at hm ⊢; omega
          rw [ih k t hk]
          omega

/-- C5: every token-bucket admission call issued for a total-count policy
carries capacity `TotalMaxCount × d`, rate `TotalMaxCount` and cost `d`
(`d` = window duration in seconds), and — the bucket itself modelled from
the spec — an idle bucket so parameterized admits an instantaneous burst
of exactly `TotalMaxCount` requests, and a drained bucket admits
`TotalMaxCount` more one window later. -/
theorem totalCheck_tokenBucket_parameterization :
    (∀ (sc : Int) (p : ModelRateLimitPolicy) (u : String) (o : List RlRes)
      (k : String) (cap ra rq : Int) (r : RlRes),
      RlOp.totalCheck k cap ra rq r ∈ (checkSingleRedisRateLimit sc p u o).trace →
      cap = p.totalMaxCount * (p.durationMinutes * 60) ∧
      ra = p.totalMaxCount ∧ rq = p.durationMinutes * 60) ∧
    (∀ (C d t : Int) (n : Nat), 1 ≤ C → 1 ≤ d →
      tbCountAdmitted (C * d) C d (TBState.fresh (C * d) t)
          (List.replicate n t) = min n C.toNat ∧
      tbCountAdmitted (C * d) C d ⟨0, t⟩ (List.replicate n (t + d)) =
        min n C.toNat) := by
  constructor
  · exact checkSingle_totalCheck_params
  · intro C d t n hC hd
    constructor
    · have hCd : (C * d) = ((C.toNat : Nat) : Int) * d := by
        rw [Int.toNat_of_nonneg (by omega)]
      have := tbCount_sameInstant C d hC hd n C.toNat t
        (by rw [Int.toNat_of_nonneg (by omega)])
      unfold TBState.fresh
      rw [show (⟨C * d, t⟩ : TBState) = ⟨((C.toNat : Nat) : Int) * d, t⟩ by
        rw [← hCd]]
      exact this
    · cases n with
      | zero => simp [tbCountAdmitted]
      | succ n =>
          rw [List.replicate_succ]
          unfold tbCountAdmitted tbAllow
          simp only [zero_add]
          have helapsed : C * (t + d - t) = C * d := by ring_nf
          rw [helapsed, min_self]
          have hadm : d ≤ C * d := by
            calc d = 1 * d := (one_mul d).symm
            _ ≤ C * d := mul_le_mul_of_nonneg_right hC (by omega)
          rw [if_pos hadm]
          have hc : ((C.toNat : Nat) : Int) = C := Int.toNat_of_nonneg (by omega)
          have hC1 : 1 ≤ C.toNat := by omega
          show (1 : Nat) + tbCountAdmitted (C * d) C d
            ⟨C * d - d, t + d⟩ (List.replicate n (t + d)) = min (n + 1) C.toNat
          have htok : C * d - d = ((C.toNat - 1 : Nat) : Int) * d := by
            rw [Nat.cast_sub hC1, hc]
            push_cast
            ring
          rw [htok]
          rw [tbCount_sameInstant C d hC hd n (C.toNat - 1) (t + d) (by omega)]
          omega

/-- Witness for C5: the bucket call of a `{duration 1min, total 2}` policy
is issued with capacity 120, rate 2, cost 60, and such an idle bucket
admits exactly 2 of 3 instantaneous requests. -/
theorem totalCheck_tokenBucket_parameterization_witness :
    (RlOp.totalCheck "rateLimit:model:MRRL:id:a:0" 120 2 60 (RlRes.ok true) ∈
      (checkSingleRedisRateLimit 1 ⟨"a", 1, 2, 0⟩ "u" [RlRes.ok true]).trace →
      (120 : Int) = 2 * (1 * 60) ∧ (2 : Int) = 2 ∧ (60 : Int) = 1 * 60) ∧
    tbCountAdmitted (2 * 60) 2 60 (TBState.fresh (2 * 60) 0)
      (List.replicate 3 0) = min 3 (2 : Int).toNat :=
  ⟨fun h => totalCheck_tokenBucket_parameterization.1 1 ⟨"a", 1, 2, 0⟩ "u"
      [RlRes.ok true] _ _ _ _ _ h,
    (totalCheck_tokenBucket_parameterization.2 2 60 0 3 (by norm_num)
      (by norm_num)).1⟩

theorem pairs_of_rollback_list {l : List RlOp} {k e : String}
    (h : ∀ ev ∈ l, ev = RlOp.rollback k e) :
    reservedPairs l = [] ∧
    (∀ x ∈ rolledPairs l, x = (k, e)) ∧
    (l ≠ [] → (k, e) ∈ rolledPairs l) ∧
    (∀ ev ∈ l, isErrOp ev = false ∧ isDenyOp ev = false ∧
      isSuccessCheckOp ev = false ∧ isTotalCheckOp ev = false) := by
  induction l with
  | nil => simp [reservedPairs, rolledPairs]
  | cons a t ih =>
      have ha : a = RlOp.rollback k e := h a (List.mem_cons_self a t)
      have ht : ∀ ev ∈ t, ev = RlOp.rollback k e :=
        fun ev hev => h ev (List.mem_cons_of_mem _ hev)
      obtain ⟨ih1, ih2, _, ih4⟩ := ih ht
      subst ha
      refine ⟨?_, ?_, ?_, ?_⟩
      · simpa [reservedPairs] using congrArg id ih1
      · intro x hx
        simp only [rolledPairs, List.filterMap_cons] at hx
        simp only [List.mem_cons] at hx
        rcases hx with rfl | hx
        · rfl
        · exact ih2 x hx
      · intro _
        simp [rolledPairs]
      · intro ev hev
        rcases List.mem_cons.1 hev with rfl | hev
        · exact ⟨rfl, rfl, rfl, rfl⟩
        · exact ih4 ev hev

theorem rollbackWithRetry_all (k e : String) (o : List RlRes) :
    ∀ ev ∈ (rollbackWithRetry k e o).1, ev = RlOp.rollback k e :=
  rollbackWithRetry_ops

theorem rollbackWithRetry_nonempty (k : String) {e : String} (o : List RlRes)
    (he : e ≠ "") : (rollbackWithRetry k e o).1 ≠ [] := by
  unfold rollbackWithRetry
  rw [if_neg he]
  simp only
  rcases (nextRes o).1 with b | _ <;> simp

theorem rollbackAll_props : ∀ (records : List RedisSuccessRecord)
    (o : List RlRes), (∀ r ∈ records, r.entrySuffix ≠ "") →
    reservedPairs (rollbackAll records o).1 = [] ∧
    (∀ x, x ∈ rolledPairs (rollbackAll records o).1 ↔
      x ∈ records.map (fun r => (r.successKey, r.entrySuffix))) ∧
    (∀ ev ∈ (rollbackAll records o).1, isErrOp ev = false ∧
      isDenyOp ev = false ∧ isSuccessCheckOp ev = false ∧
      isTotalCheckOp ev = false) := by
  intro records
  induction records with
  | nil =>
      intro o _
      simp [rollbackAll, reservedPairs, rolledPairs]
  | cons r rest ih =>
      intro o hrec
      have hr : r.entrySuffix ≠ "" := hrec r (List.mem_cons_self r rest)
      have hrest : ∀ x ∈ rest, x.entrySuffix ≠ "" :=
        fun x hx => hrec x (List.mem_cons_of_mem _ hx)
      obtain ⟨p1, p2, p3, p4⟩ := pairs_of_rollback_list
        (rollbackWithRetry_all r.successKey r.entrySuffix o)
      obtain ⟨q1, q2, q3⟩ := ih (rollbackWithRetry r.successKey r.entrySuffix o).2
        hrest
      have htr : (rollbackAll (r :: rest) o).1 =
          (rollbackWithRetry r.successKey r.entrySuffix o).1 ++
            (rollbackAll rest
              (rollbackWithRetry r.successKey r.entrySuffix o).2).1 := rfl
      refine ⟨?_, ?_, ?_⟩
      · rw [htr]
        unfold reservedPairs at *
        rw [List.filterMap_append, p1, q1]
        rfl
      · intro x
        rw [htr]
        unfold rolledPairs at *
        rw [List.filterMap_append, List.mem_append]
        constructor
        · rintro (hx | hx)
          · have := p2 x hx
            subst this
            simp
          · have := (q2 x).1 hx
            simp only [List.map_cons, List.mem_cons]
            exact Or.inr this
        · intro hx
          simp only [List.map_cons, List.mem_cons] at hx
          rcases hx with rfl | hx
          · exact Or.inl (p3 (rollbackWithRetry_nonempty _ o hr))
          · exact Or.inr ((q2 x).2 hx)
      · intro ev hev
        rw [htr] at hev
        rcases List.mem_append.1 hev with hev | hev
        · exact ⟨(p4 ev hev).1, (p4 ev hev).2.1, (p4 ev hev).2.2.1,
            (p4 ev hev).2.2.2⟩
        · exact q3 ev hev

theorem reservedPairs_eq_nil_of_no_success {l : List RlOp}
    (h : ∀ ev ∈ l, isSuccessCheckOp ev = false) : reservedPairs l = [] := by
  induction l with
  | nil => rfl
  | cons a t ih =>
      have ha := h a (List.mem_cons_self a t)
      have ht := fun ev hev => h ev (List.mem_cons_of_mem a hev)
      have hrest := ih ht
      cases a with
      | successCheck k e r => simp [isSuccessCheckOp] at ha
      | totalCheck k cap ra rq r => simpa [reservedPairs] using hrest
      | rollback k e => simpa [reservedPairs] using hrest

/-- Properties of the total-count phase of one policy check. -/
theorem checkTotalPhase_props {p : ModelRateLimitPolicy} {sk tk : String}
    {dur : Int} {entry : String} {o : List RlRes} {c : CheckResult}
    (hc : checkTotalPhase p sk tk dur entry o = c) :
    c.outcome ≠ .deniedBySuccess ∧
    (∀ ev ∈ c.trace, isSuccessCheckOp ev = false) ∧
    (c.outcome = .allowed →
      c.record = (if entry ≠ "" then some ⟨sk, p.durationMinutes, entry⟩
        else none) ∧
      rolledPairs c.trace = [] ∧
      (∀ ev ∈ c.trace, isErrOp ev = false ∧ isDenyOp ev = false)) ∧
    (c.outcome ≠ .allowed →
      c.record = none ∧
      (∀ x ∈ rolledPairs c.trace, x = (sk, entry) ∧ entry ≠ "") ∧
      (entry ≠ "" → (sk, entry) ∈ rolledPairs c.trace)) ∧
    (c.outcome = .failed → ∀ ev ∈ c.trace, isDenyOp ev = false) ∧
    (c.outcome = .deniedByTotal → ∀ ev ∈ c.trace, isErrOp ev = false) := by
  unfold checkTotalPhase at hc
  by_cases htot : p.totalMaxCount > 0
  · rw [if_pos htot] at hc
    simp only at hc
    rcases hres : (nextRes o).1 with b | _
    · rw [hres] at hc
      cases b
      · -- denied by the total-count check
        simp only [if_neg (by simp : ¬ false = true)] at hc
        subst hc
        obtain ⟨p1, p2, p3, p4⟩ := pairs_of_rollback_list
          (rollbackWithRetry_all sk entry (nextRes o).2)
        refine ⟨by simp, ?_, by intro h; simp at h, ?_, by intro h; simp at h,
          ?_⟩
        · intro ev hev
          rcases List.mem_cons.1 hev with rfl | hev
          · rfl
          · exact (p4 ev hev).2.2.1
        · intro _
          refine ⟨rfl, ?_, ?_⟩
          · intro x hx
            simp only [rolledPairs, List.filterMap_cons] at hx
            by_cases he : entry = ""
            · subst he
              rw [show rollbackWithRetry sk "" (nextRes o).2 = ([], (nextRes o).2)
                  from rfl] at hx
              simp [rolledPairs] at hx
            · exact ⟨p2 x hx, he⟩
          · intro he
            have := p3 (rollbackWithRetry_nonempty sk (nextRes o).2 he)
            simp only [rolledPairs, List.filterMap_cons]
            exact this
        · intro _ ev hev
          rcases List.mem_cons.1 hev with rfl | hev
          · rfl
          · exact (p4 ev hev).1
      · -- admitted by the total-count check
        simp only [if_pos rfl] at hc
        subst hc
        refine ⟨by simp, ?_, ?_, by intro h; exact absurd rfl h,
          by intro h; simp at h, by intro h; simp at h⟩
        · intro ev hev
          rcases List.mem_cons.1 hev with rfl | hev
          · rfl
          · simp at hev
        · intro _
          refine ⟨rfl, by simp [rolledPairs], ?_⟩
          intro ev hev
          rcases List.mem_cons.1 hev with rfl | hev
          · exact ⟨rfl, rfl⟩
          · simp at hev
    · -- the script call errored
      rw [hres] at hc
      simp only at hc
      subst hc
      obtain ⟨p1, p2, p3, p4⟩ := pairs_of_rollback_list
        (rollbackWithRetry_all sk entry (nextRes o).2)
      refine ⟨by simp, ?_, by intro h; simp at h, ?_, ?_,
        by intro h; simp at h⟩
      · intro ev hev
        rcases List.mem_cons.1 hev with rfl | hev
        · rfl
        · exact (p4 ev hev).2.2.1
      · intro _
        refine ⟨rfl, ?_, ?_⟩
        · intro x hx
          simp only [rolledPairs, List.filterMap_cons] at hx
          by_cases he : entry = ""
          · subst he
            rw [show rollbackWithRetry sk "" (nextRes o).2 = ([], (nextRes o).2)
                from rfl] at hx
            simp [rolledPairs] at hx
          · exact ⟨p2 x hx, he⟩
        · intro he
          have := p3 (rollbackWithRetry_nonempty sk (nextRes o).2 he)
          simp only [rolledPairs, List.filterMap_cons]
          exact this
      · intro _ ev hev
        rcases List.mem_cons.1 hev with rfl | hev
        · rfl
        · exact (p4 ev hev).2.1
  · rw [if_neg htot] at hc
    subst hc
    refine ⟨by simp, by simp, ?_, by intro h; exact absurd rfl h,
      by intro h; simp at h, by intro h; simp at h⟩
    intro _
    exact ⟨rfl, by simp [rolledPairs], by simp⟩

/-- Properties of one policy check (the `uuid` is nonempty, as
`common.GetUUID()` guarantees). -/
theorem checkSingle_props {sc : Int} {p : ModelRateLimitPolicy} {u : String}
    {o : List RlRes} {c : CheckResult} (hu : u ≠ "")
    (hc : checkSingleRedisRateLimit sc p u o = c) :
    (c.outcome = .allowed →
      rolledPairs c.trace = [] ∧
      (∀ ev ∈ c.trace, isErrOp ev = false ∧ isDenyOp ev = false) ∧
      reservedPairs c.trace =
        (c.record.map (fun rec => (rec.successKey, rec.entrySuffix))).toList ∧
      (∀ rec, c.record = some rec → rec.entrySuffix ≠ "")) ∧
    (c.outcome ≠ .allowed →
      c.record = none ∧
      (∀ x, x ∈ rolledPairs c.trace ↔ x ∈ reservedPairs c.trace)) ∧
    (c.outcome = .failed → ∀ ev ∈ c.trace, isDenyOp ev = false) ∧
    ((c.outcome = .deniedBySuccess ∨ c.outcome = .deniedByTotal) →
      ∀ ev ∈ c.trace, isErrOp ev = false) := by
  unfold checkSingleRedisRateLimit at hc
  by_cases hdur : p.durationMinutes * 60 ≤ 0
  · rw [if_pos hdur] at hc
    subst hc
    refine ⟨?_, by intro h; exact absurd rfl h, by intro h; simp at h,
      by intro h; simp at h⟩
    intro _
    exact ⟨by simp [rolledPairs], by simp, by simp [reservedPairs], by simp⟩
  · rw [if_neg hdur] at hc
    simp only at hc
    by_cases hsmax : p.successMaxCount > 0
    · rw [if_pos hsmax] at hc
      split at hc
      · -- the success-count script call errored
        rename_i heq
        rw [heq] at hc
        subst hc
        refine ⟨by intro h; simp at h, ?_, ?_, by intro h; rcases h with h | h <;>
          simp at h⟩
        · intro _
          exact ⟨rfl, by simp [rolledPairs, reservedPairs]⟩
        · intro _ ev hev
          rcases List.mem_cons.1 hev with rfl | hev
          · rfl
          · simp at hev
      · -- the success-count check replied
        rename_i b heq
        rw [heq] at hc
        cases b
        · -- ... denying the request
          rw [if_neg (by simp)] at hc
          subst hc
          refine ⟨by intro h; simp at h, ?_, by intro h; simp at h, ?_⟩
          · intro _
            exact ⟨rfl, by simp [rolledPairs, reservedPairs]⟩
          · intro _ ev hev
            rcases List.mem_cons.1 hev with rfl | hev
            · rfl
            · simp at hev
        · -- ... admitting and recording the reservation
          rw [if_pos rfl] at hc
          rcases hphase : checkTotalPhase p (successKeyOf sc p)
            (totalKeyOf sc p) (p.durationMinutes * 60) u (nextRes o).2 with cp
          rw [hphase] at hc
          obtain ⟨q0, q1, q2, q3, q4, q5⟩ := checkTotalPhase_props hphase
          have hres0 : reservedPairs cp.trace = [] :=
            reservedPairs_eq_nil_of_no_success q1
          subst hc
          refine ⟨?_, ?_, ?_, ?_⟩
          · intro hout
            obtain ⟨hrec, hroll, hgood⟩ := q2 hout
            refine ⟨?_, ?_, ?_, ?_⟩
            · simpa [rolledPairs] using hroll
            · intro ev hev
              rcases List.mem_cons.1 hev with rfl | hev
              · exact ⟨rfl, rfl⟩
              · exact hgood ev hev
            · show reservedPairs (RlOp.successCheck (successKeyOf sc p) u
                  (RlRes.ok true) :: cp.trace) =
                (cp.record.map
                  (fun rec => (rec.successKey, rec.entrySuffix))).toList
              rw [hrec, if_pos hu]
              have hx : reservedPairs (RlOp.successCheck (successKeyOf sc p) u
                  (RlRes.ok true) :: cp.trace) =
                  (successKeyOf sc p, u) :: reservedPairs cp.trace := by
                simp [reservedPairs]
              rw [hx, hres0]
              rfl
            · intro rec hrec2
              rw [hrec, if_pos hu] at hrec2
              injection hrec2 with h
              rw [← h]
              exact hu
          · intro hout
            obtain ⟨hrec, hroll, hmem⟩ := q3 hout
            refine ⟨hrec, ?_⟩
            intro x
            have hrw : rolledPairs (RlOp.successCheck (successKeyOf sc p) u
                (RlRes.ok true) :: cp.trace) = rolledPairs cp.trace := by
              simp [rolledPairs]
            have hrw2 : reservedPairs (RlOp.successCheck (successKeyOf sc p) u
                (RlRes.ok true) :: cp.trace) =
                (successKeyOf sc p, u) :: reservedPairs cp.trace := by
              simp [reservedPairs]
            show x ∈ rolledPairs (RlOp.successCheck (successKeyOf sc p) u
              (RlRes.ok true) :: cp.trace) ↔ x ∈ reservedPairs
                (RlOp.successCheck (successKeyOf sc p) u (RlRes.ok true) ::
                  cp.trace)
            rw [hrw, hrw2, hres0]
            constructor
            · intro hx
              have := (hroll x hx).1
              simp [this]
            · intro hx
              simp only [List.mem_cons] at hx
              rcases hx with rfl | hx
              · exact hmem hu
              · simp at hx
          · intro hout ev hev
            rcases List.mem_cons.1 hev with rfl | hev
            · rfl
            · exact q4 hout ev hev
          · intro hout ev hev
            rcases List.mem_cons.1 hev with rfl | hev
            · rfl
            · rcases hout with hout | hout
              · exact absurd hout q0
              · exact q5 hout ev hev
    · -- no success-count policy: only the total-count phase runs
      rw [if_neg hsmax] at hc
      obtain ⟨q0, q1, q2, q3, q4, q5⟩ := checkTotalPhase_props hc
      have hres0 : reservedPairs c.trace = [] :=
        reservedPairs_eq_nil_of_no_success q1
      refine ⟨?_, ?_, q4, ?_⟩
      · intro hout
        obtain ⟨hrec, hroll, hgood⟩ := q2 hout
        refine ⟨hroll, hgood, ?_, ?_⟩
        · rw [hrec, if_neg (by simp)]
          simpa using hres0
        · intro rec hrec2
          rw [hrec, if_neg (by simp)] at hrec2
          simp at hrec2
      · intro hout
        obtain ⟨hrec, hroll, _⟩ := q3 hout
        refine ⟨hrec, ?_⟩
        intro x
        rw [hres0]
        constructor
        · intro hx
          exact absurd (hroll x hx).2 (by simp)
        · intro hx
          simp at hx
      · intro hout ev hev
        rcases hout with hout | hout
        · exact absurd hout q0
        · exact q5 hout ev hev

theorem enforceLoop_nil (sc : Int) (uuids : Nat → String) (i : Nat)
    (records : List RedisSuccessRecord) (o : List RlRes) :
    enforceLoop sc uuids i [] records o = ⟨none, records, [], o⟩ := rfl

theorem enforceLoop_cons (sc : Int) (uuids : Nat → String) (i : Nat)
    (p : ModelRateLimitPolicy) (rest : List ModelRateLimitPolicy)
    (records : List RedisSuccessRecord) (o : List RlRes) :
    enforceLoop sc uuids i (p :: rest) records o =
      (if (checkSingleRedisRateLimit sc p (uuids i) o).outcome = .failed then
        ⟨some 500, records,
          (checkSingleRedisRateLimit sc p (uuids i) o).trace ++
            (rollbackAll records
              (checkSingleRedisRateLimit sc p (uuids i) o).oracle).1,
          (rollbackAll records
            (checkSingleRedisRateLimit sc p (uuids i) o).oracle).2⟩
      else if (checkSingleRedisRateLimit sc p (uuids i) o).outcome = .allowed
      then
        { enforceLoop sc uuids (i + 1) rest
            (records ++ (checkSingleRedisRateLimit sc p (uuids i) o).record.toList)
            (checkSingleRedisRateLimit sc p (uuids i) o).oracle with
          trace := (checkSingleRedisRateLimit sc p (uuids i) o).trace ++
            (enforceLoop sc uuids (i + 1) rest
              (records ++
                (checkSingleRedisRateLimit sc p (uuids i) o).record.toList)
              (checkSingleRedisRateLimit sc p (uuids i) o).oracle).trace }
      else
        ⟨some 429, records,
          (checkSingleRedisRateLimit sc p (uuids i) o).trace ++
            (rollbackAll records
              (checkSingleRedisRateLimit sc p (uuids i) o).oracle).1,
          (rollbackAll records
            (checkSingleRedisRateLimit sc p (uuids i) o).oracle).2⟩) := rfl

theorem rolledPairs_append (a b : List RlOp) :
    rolledPairs (a ++ b) = rolledPairs a ++ rolledPairs b := by
  unfold rolledPairs
  exact List.filterMap_append a b _

theorem reservedPairs_append (a b : List RlOp) :
    reservedPairs (a ++ b) = reservedPairs a ++ reservedPairs b := by
  unfold reservedPairs
  exact List.filterMap_append a b _

/-- Invariant of the policy loop of `enforceRedisModelRateLimit`:
an abort-free pass performs no rollback and accumulates exactly the
reservations visible in its trace; an aborting pass (429 or 500) rolls
back exactly its own reservations plus the carried-in records, and its
trace carries no error event when it aborted with 429 and no denial event
when it aborted with 500. -/
theorem enforceLoop_props (sc : Int) (uuids : Nat → String)
    (hu : ∀ n, uuids n ≠ "") :
    ∀ (ps : List ModelRateLimitPolicy) (i : Nat)
      (records : List RedisSuccessRecord) (o : List RlRes),
      (∀ r ∈ records, r.entrySuffix ≠ "") →
      ((enforceLoop sc uuids i ps records o).abortStatus = none →
        (∀ r ∈ (enforceLoop sc uuids i ps records o).records,
          r.entrySuffix ≠ "") ∧
        rolledPairs (enforceLoop sc uuids i ps records o).trace = [] ∧
        (∀ ev ∈ (enforceLoop sc uuids i ps records o).trace,
          isErrOp ev = false ∧ isDenyOp ev = false) ∧
        (enforceLoop sc uuids i ps records o).records.map
            (fun r => (r.successKey, r.entrySuffix)) =
          records.map (fun r => (r.successKey, r.entrySuffix)) ++
            reservedPairs (enforceLoop sc uuids i ps records o).trace) ∧
      (∀ code, (enforceLoop sc uuids i ps records o).abortStatus = some code →
        (code = 429 ∨ code = 500) ∧
        (∀ x, x ∈ rolledPairs (enforceLoop sc uuids i ps records o).trace ↔
          (x ∈ reservedPairs (enforceLoop sc uuids i ps records o).trace ∨
           x ∈ records.map (fun r => (r.successKey, r.entrySuffix)))) ∧
        (code = 429 →
          ∀ ev ∈ (enforceLoop sc uuids i ps records o).trace,
            isErrOp ev = false) ∧
        (code = 500 →
          ∀ ev ∈ (enforceLoop sc uuids i ps records o).trace,
            isDenyOp ev = false)) := by
  intro ps
  induction ps with
  | nil =>
      intro i records o hrec
      rw [enforceLoop_nil]
      constructor
      · intro _
        exact ⟨hrec, rfl, by simp, by simp [reservedPairs]⟩
      · intro code hcode
        simp at hcode
  | cons p rest ih =>
      intro i records o hrec
      rw [enforceLoop_cons]
      generalize hc : checkSingleRedisRateLimit sc p (uuids i) o = c
      obtain ⟨hallow, hnotallow, hfailprop, hdenyprop⟩ :=
        checkSingle_props (hu i) hc
      by_cases hfail : c.outcome = CheckOutcome.failed
      · rw [if_pos hfail]
        obtain ⟨hrecnone, hiff⟩ := hnotallow (by rw [hfail]; simp)
        obtain ⟨r1, r2, r3⟩ := rollbackAll_props records c.oracle hrec
        constructor
        · intro hnone
          simp at hnone
        · intro code hcode
          simp only [Option.some.injEq] at hcode
          refine ⟨Or.inr hcode.symm, ?_, ?_, ?_⟩
          · intro x
            simp only [rolledPairs_append, reservedPairs_append,
              List.mem_append]
            rw [r1]
            constructor
            · rintro (hx | hx)
              · exact Or.inl (Or.inl ((hiff x).1 hx))
              · exact Or.inr ((r2 x).1 hx)
            · rintro ((hx | hx) | hx)
              · exact Or.inl ((hiff x).2 hx)
              · simp at hx
              · exact Or.inr ((r2 x).2 hx)
          · intro h429
            omega
          · intro _ ev hev
            rcases List.mem_append.1 hev with hev | hev
            · exact hfailprop hfail ev hev
            · exact (r3 ev hev).2.1
      · rw [if_neg hfail]
        by_cases hok : c.outcome = CheckOutcome.allowed
        · rw [if_pos hok]
          obtain ⟨hroll0, hgood, hresv, hrecne⟩ := hallow hok
          have hrec' : ∀ r ∈ records ++ c.record.toList, r.entrySuffix ≠ "" := by
            intro r hr
            rcases List.mem_append.1 hr with hr | hr
            · exact hrec r hr
            · rcases hcr : c.record with _ | rec
              · rw [hcr] at hr
                simp at hr
              · rw [hcr] at hr
                simp only [Option.toList_some, List.mem_singleton] at hr
                subst hr
                exact hrecne r hcr
          obtain ⟨ihnone, ihsome⟩ := ih (i + 1) (records ++ c.record.toList)
            c.oracle hrec'
          have hpairs : (records ++ c.record.toList).map
              (fun r => (r.successKey, r.entrySuffix)) =
              records.map (fun r => (r.successKey, r.entrySuffix)) ++
                reservedPairs c.trace := by
            rw [List.map_append, hresv]
            congr 1
            rcases hcr : c.record with _ | rec <;> simp
          constructor
          · intro hnone
            simp only at hnone
            obtain ⟨n1, n2, n3, n4⟩ := ihnone hnone
            refine ⟨n1, ?_, ?_, ?_⟩
            · simp only [rolledPairs_append, hroll0, n2]
              rfl
            · intro ev hev
              rcases List.mem_append.1 hev with hev | hev
              · exact hgood ev hev
              · exact n3 ev hev
            · simp only [reservedPairs_append]
              rw [n4, hpairs]
              simp [List.append_assoc]
          · intro code hcode
            simp only at hcode
            obtain ⟨s1, s2, s3, s4⟩ := ihsome code hcode
            refine ⟨s1, ?_, ?_, ?_⟩
            · intro x
              simp only [rolledPairs_append, reservedPairs_append,
                List.mem_append, hroll0]
              rw [hpairs] at s2
              have := s2 x
              simp only [List.mem_append] at this
              constructor
              · rintro (hx | hx)
                · simp at hx
                · rcases this.1 hx with hx' | hx' | hx'
                  · exact Or.inl (Or.inr hx')
                  · exact Or.inr hx'
                  · exact Or.inl (Or.inl hx')
              · rintro ((hx | hx) | hx)
                · exact Or.inr (this.2 (Or.inr (Or.inr hx)))
                · exact Or.inr (this.2 (Or.inl hx))
                · exact Or.inr (this.2 (Or.inr (Or.inl hx)))
            · intro h429 ev hev
              rcases List.mem_append.1 hev with hev | hev
              · exact (hgood ev hev).1
              · exact s3 h429 ev hev
            · intro h500 ev hev
              rcases List.mem_append.1 hev with hev | hev
              · exact (hgood ev hev).2
              · exact s4 h500 ev hev
        · rw [if_neg hok]
          obtain ⟨hrecnone, hiff⟩ := hnotallow hok
          obtain ⟨r1, r2, r3⟩ := rollbackAll_props records c.oracle hrec
          constructor
          · intro hnone
            simp at hnone
          · intro code hcode
            simp only [Option.some.injEq] at hcode
            refine ⟨Or.inl hcode.symm, ?_, ?_, ?_⟩
            · intro x
              simp only [rolledPairs_append, reservedPairs_append,
                List.mem_append]
              rw [r1]
              constructor
              · rintro (hx | hx)
                · exact Or.inl (Or.inl ((hiff x).1 hx))
                · exact Or.inr ((r2 x).1 hx)
              · rintro ((hx | hx) | hx)
                · exact Or.inl ((hiff x).2 hx)
                · simp at hx
                · exact Or.inr ((r2 x).2 hx)
            · intro _ ev hev
              rcases List.mem_append.1 hev with hev | hev
              · refine hdenyprop ?_ ev hev
                rcases houtc : c.outcome with h1 | h2 | h3 | h4
                · exact absurd houtc hok
                · exact Or.inl rfl
                · exact Or.inr rfl
                · exact absurd houtc hfail
              · exact (r3 ev hev).1
            · intro h500
              omega

/-- The success-count check, when present, is always the first operation
a policy check issues: nothing after the head of the trace is a
success-count check. -/
theorem checkSingle_drop1_no_successCheck {sc : Int}
    {p : ModelRateLimitPolicy} {u : String} {o : List RlRes}
    {c : CheckResult} (hc : checkSingleRedisRateLimit sc p u o = c) :
    ∀ ev ∈ c.trace.drop 1, isSuccessCheckOp ev = false := by
  unfold checkSingleRedisRateLimit at hc
  by_cases hdur : p.durationMinutes * 60 ≤ 0
  · rw [if_pos hdur] at hc
    subst hc
    simp
  · rw [if_neg hdur] at hc
    simp only at hc
    by_cases hsmax : p.successMaxCount > 0
    · rw [if_pos hsmax] at hc
      split at hc
      · rename_i heq
        rw [heq] at hc
        subst hc
        simp
      · rename_i b heq
        rw [heq] at hc
        cases b
        · rw [if_neg (by simp)] at hc
          subst hc
          simp
        · rw [if_pos rfl] at hc
          rcases hphase : checkTotalPhase p (successKeyOf sc p)
            (totalKeyOf sc p) (p.durationMinutes * 60) u (nextRes o).2 with cp
          rw [hphase] at hc
          subst hc
          intro ev hev
          exact (checkTotalPhase_props hphase).2.1 ev (by simpa using hev)
    · rw [if_neg hsmax] at hc
      intro ev hev
      exact (checkTotalPhase_props hc).2.1 ev (List.mem_of_mem_drop hev)

theorem enforceRedis_eval (sc : Int) (uuids : Nat → String)
    (policies : List ModelRateLimitPolicy) (h : Nat) (o : List RlRes) :
    enforceRedisModelRateLimit sc uuids policies h o =
      match (enforceLoop sc uuids 0 policies [] o).abortStatus with
      | some code => (code, (enforceLoop sc uuids 0 policies [] o).trace)
      | none =>
          if h ≥ 400 then
            (h, (enforceLoop sc uuids 0 policies [] o).trace ++
              (rollbackAll (enforceLoop sc uuids 0 policies [] o).records
                (enforceLoop sc uuids 0 policies [] o).oracle).1)
          else (h, (enforceLoop sc uuids 0 policies [] o).trace) := rfl

/-- C1: the speculative-accounting flow of `enforceRedisModelRateLimit`.
Within every policy check the success-count check (which reserves a slot
under a fresh unique entry) precedes the total-count check; a run whose
trace contains a denied check ends as HTTP 429, one containing an errored
check ends as HTTP 500 (fail-closed, never silently admitted); and the
speculative reservations are rolled back — all of them — exactly when the
final response status is at least 400, rollbacks never targeting anything
that was not reserved. -/
theorem enforceRedis_speculative_flow (sc : Int) (uuids : Nat → String)
    (policies : List ModelRateLimitPolicy) (handlerStatus : Nat)
    (o : List RlRes) (hu : ∀ n, uuids n ≠ "") :
    (∀ (p : ModelRateLimitPolicy) (u : String) (o' : List RlRes)
      (i j : Nat) (k e : String) (r : RlRes) (k' : String)
      (cap ra rq : Int) (r' : RlRes),
      (checkSingleRedisRateLimit sc p u o').trace.get? j =
        some (RlOp.successCheck k e r) →
      (checkSingleRedisRateLimit sc p u o').trace.get? i =
        some (RlOp.totalCheck k' cap ra rq r') → j < i) ∧
    (∀ ev ∈ (enforceRedisModelRateLimit sc uuids policies handlerStatus o).2,
      isDenyOp ev = true →
      (enforceRedisModelRateLimit sc uuids policies handlerStatus o).1 = 429) ∧
    (∀ ev ∈ (enforceRedisModelRateLimit sc uuids policies handlerStatus o).2,
      isErrOp ev = true →
      (enforceRedisModelRateLimit sc uuids policies handlerStatus o).1 = 500) ∧
    ((enforceRedisModelRateLimit sc uuids policies handlerStatus o).1 ≥ 400 →
      ∀ x ∈ reservedPairs
        (enforceRedisModelRateLimit sc uuids policies handlerStatus o).2,
        x ∈ rolledPairs
          (enforceRedisModelRateLimit sc uuids policies handlerStatus o).2) ∧
    ((enforceRedisModelRateLimit sc uuids policies handlerStatus o).1 < 400 →
      rolledPairs
        (enforceRedisModelRateLimit sc uuids policies handlerStatus o).2 = []) ∧
    (∀ x ∈ rolledPairs
        (enforceRedisModelRateLimit sc uuids policies handlerStatus o).2,
      x ∈ reservedPairs
        (enforceRedisModelRateLimit sc uuids policies handlerStatus o).2) := by
  constructor
  · -- ordering within one policy check
    intro p u o' i j k e r k' cap ra rq r' hj hi
    have hdrop := checkSingle_drop1_no_successCheck
      (rfl : checkSingleRedisRateLimit sc p u o' = _)
    by_cases hj0 : j = 0
    · subst hj0
      by_cases hi0 : i = 0
      · subst hi0
        rw [hj] at hi
        simp at hi
      · omega
    · exfalso
      have hj1 : j = 1 + (j - 1) := by omega
      rw [hj1] at hj
      rw [List.get?_eq_getElem?, ← List.getElem?_drop, ← List.get?_eq_getElem?] at hj
      have hmem := List.get?_mem hj
      have := hdrop _ hmem
      simp [isSuccessCheckOp] at this
  · -- properties of a full run
    have hloop := enforceLoop_props sc uuids hu policies 0 [] o (by simp)
    rcases habort : (enforceLoop sc uuids 0 policies [] o).abortStatus
      with _ | code
    · -- admitted: the handler ran
      obtain ⟨n1, n2, n3, n4⟩ := hloop.1 habort
      by_cases hge : handlerStatus ≥ 400
      · have hrun : enforceRedisModelRateLimit sc uuids policies
            handlerStatus o =
            (handlerStatus, (enforceLoop sc uuids 0 policies [] o).trace ++
              (rollbackAll (enforceLoop sc uuids 0 policies [] o).records
                (enforceLoop sc uuids 0 policies [] o).oracle).1) := by
          rw [enforceRedis_eval, habort, if_pos hge]
        rw [hrun]
        dsimp only
        obtain ⟨r1, r2, r3⟩ := rollbackAll_props
          (enforceLoop sc uuids 0 policies [] o).records
          (enforceLoop sc uuids 0 policies [] o).oracle n1
        have hres : reservedPairs ((enforceLoop sc uuids 0 policies [] o).trace
            ++ (rollbackAll (enforceLoop sc uuids 0 policies [] o).records
              (enforceLoop sc uuids 0 policies [] o).oracle).1) =
            reservedPairs (enforceLoop sc uuids 0 policies [] o).trace := by
          rw [reservedPairs_append, r1]
          simp
        have hrold : ∀ x, x ∈ rolledPairs
            ((enforceLoop sc uuids 0 policies [] o).trace ++
              (rollbackAll (enforceLoop sc uuids 0 policies [] o).records
                (enforceLoop sc uuids 0 policies [] o).oracle).1) ↔
            x ∈ reservedPairs (enforceLoop sc uuids 0 policies [] o).trace := by
          intro x
          rw [rolledPairs_append, n2]
          simp only [List.nil_append]
          rw [r2 x]
          rw [show (enforceLoop sc uuids 0 policies [] o).records.map
            (fun r => (r.successKey, r.entrySuffix)) =
            reservedPairs (enforceLoop sc uuids 0 policies [] o).trace from by
              simpa using n4]
        refine ⟨?_, ?_, ?_, ?_, ?_⟩
        · intro ev hev _
          rcases List.mem_append.1 hev with hev | hev
          · exact absurd (n3 ev hev).2 (by simp_all)
          · exact absurd (r3 ev hev).2.1 (by simp_all)
        · intro ev hev _
          rcases List.mem_append.1 hev with hev | hev
          · exact absurd (n3 ev hev).1 (by simp_all)
          · exact absurd (r3 ev hev).1 (by simp_all)
        · intro _ x hx
          rw [hres] at hx
          exact (hrold x).2 hx
        · intro hlt
          omega
        · intro x hx
          rw [hres]
          exact (hrold x).1 hx
      · have hrun : enforceRedisModelRateLimit sc uuids policies
            handlerStatus o =
            (handlerStatus, (enforceLoop sc uuids 0 policies [] o).trace) := by
          rw [enforceRedis_eval, habort, if_neg hge]
        rw [hrun]
        dsimp only
        refine ⟨?_, ?_, ?_, ?_, ?_⟩
        · intro ev hev hdeny
          exact absurd (n3 ev hev).2 (by simp_all)
        · intro ev hev herr
          exact absurd (n3 ev hev).1 (by simp_all)
        · intro hge'
          omega
        · intro _
          exact n2
        · intro x hx
          rw [n2] at hx
          simp at hx
    · -- rejected before the handler
      obtain ⟨s1, s2, s3, s4⟩ := hloop.2 code habort
      have hrun : enforceRedisModelRateLimit sc uuids policies
          handlerStatus o =
          (code, (enforceLoop sc uuids 0 policies [] o).trace) := by
        rw [enforceRedis_eval, habort]
      rw [hrun]
      dsimp only
      have hiff : ∀ x, x ∈ rolledPairs
          (enforceLoop sc uuids 0 policies [] o).trace ↔
          x ∈ reservedPairs (enforceLoop sc uuids 0 policies [] o).trace := by
        intro x
        rw [s2 x]
        simp
      refine ⟨?_, ?_, ?_, ?_, ?_⟩
      · intro ev hev hdeny
        rcases s1 with rfl | rfl
        · rfl
        · exact absurd (s4 rfl ev hev) (by simp_all)
      · intro ev hev herr
        rcases s1 with rfl | rfl
        · exact absurd (s3 rfl ev hev) (by simp_all)
        · rfl
      · intro _ x hx
        exact (hiff x).2 hx
      · intro hlt
        rcases s1 with rfl | rfl <;> omega
      · intro x hx
        exact (hiff x).1 hx

/-- Witness for C1: with one `{1min, total 2, success 3}` policy, a
success-check admission followed by a total-check denial yields a 429
rejection with the speculative reservation rolled back. -/
theorem enforceRedis_speculative_flow_witness :
    (∀ n : Nat, (fun _ : Nat => "u") n ≠ "") ∧
    (enforceRedisModelRateLimit 1 (fun _ => "u")
      [⟨"a", 1, 2, 3⟩] 200 [RlRes.ok true, RlRes.ok false]).1 = 429 ∧
    (("rateLimit:model:MRRLS:id:a:0", "u") ∈ rolledPairs
      (enforceRedisModelRateLimit 1 (fun _ => "u")
        [⟨"a", 1, 2, 3⟩] 200 [RlRes.ok true, RlRes.ok false]).2) := by
  have hthm := enforceRedis_speculative_flow 1 (fun _ => "u")
    [⟨"a", 1, 2, 3⟩] 200 [RlRes.ok true, RlRes.ok false]
    (fun _ => by simp)
  refine ⟨fun _ => by simp, ?_, ?_⟩
  · exact hthm.2.1
      (RlOp.totalCheck "rateLimit:model:MRRL:id:a:0" 120 2 60 (RlRes.ok false))
      (by decide) (by decide)
  · exact hthm.2.2.2.1 (by decide)
      ("rateLimit:model:MRRLS:id:a:0", "u") (by decide)

/-- C9 (counterexample to the claim as stated): one total-count-only
policy `{duration 1min, total 2}`; sequential requests at t = 0s, 0s and
30s (all completing with status 200).  The shared-store path (token
bucket, refilled mid-window) admits all three; the in-process fallback
(strict sliding window) rejects the third.  The two paths are not
admission-equivalent on sequential traces. -/
theorem fallback_equivalence_counterexample :
    (runRedisTrace 1 [⟨"a", 1, 2, 0⟩] (fun _ _ => "u") RedisStore.empty 0
      [(0, 200), (0, 200), (30, 200)]).2 = [true, true, true] ∧
    (runMemoryTrace [⟨"a", 1, 2, 0⟩] MemState.empty
      [(0, 200), (0, 200), (30, 200)]).2 = [true, true, false] := by
  constructor <;> decide

/-- Evaluation of one shared-store policy check for a total-count-only
policy: only the token-bucket call runs. -/
theorem checkSingleOnStore_totalOnly (sc : Int) (store : RedisStore)
    (p : ModelRateLimitPolicy) (u : String) (t' : Int)
    (hs : p.successMaxCount = 0) (hd : 0 < p.durationMinutes)
    (ht : 0 < p.totalMaxCount) :
    checkSingleRedisRateLimitOnStore sc store p u t' =
      ((tbAllowOn store (totalKeyOf sc p)
          (p.totalMaxCount * (p.durationMinutes * 60)) p.totalMaxCount
          (p.durationMinutes * 60) t').1,
        (if (tbAllowOn store (totalKeyOf sc p)
            (p.totalMaxCount * (p.durationMinutes * 60)) p.totalMaxCount
            (p.durationMinutes * 60) t').2 = false then
          CheckOutcome.deniedByTotal else CheckOutcome.allowed),
        none) := by
  unfold checkSingleRedisRateLimitOnStore
  rw [if_neg (by omega : ¬ p.durationMinutes * 60 ≤ 0)]
  simp only [hs]
  rw [if_neg (by omega : ¬ (0 : Int) > 0)]
  rw [if_neg (by simp : ¬ ((store, true) : RedisStore × Bool).2 = false)]
  rw [if_pos ht]
  by_cases hb : (tbAllowOn store (totalKeyOf sc p)
      (p.totalMaxCount * (p.durationMinutes * 60)) p.totalMaxCount
      (p.durationMinutes * 60) t').2 = false
  · rw [if_pos hb, if_pos hb]
    rw [if_neg (by simp)]
  · rw [if_neg hb, if_neg hb]
    rw [if_neg (by simp)]

/-- Evaluation of the full shared-store enforcement for a single
total-count-only policy with a succeeding handler. -/
theorem enforceOnStore_totalOnly (sc : Int) (store : RedisStore)
    (p : ModelRateLimitPolicy) (u : Nat → String) (t' : Int)
    (hs : p.successMaxCount = 0) (hd : 0 < p.durationMinutes)
    (ht : 0 < p.totalMaxCount) :
    enforceRedisModelRateLimitOnStore sc store [p] u t' 200 =
      ((tbAllowOn store (totalKeyOf sc p)
          (p.totalMaxCount * (p.durationMinutes * 60)) p.totalMaxCount
          (p.durationMinutes * 60) t').1,
        (tbAllowOn store (totalKeyOf sc p)
          (p.totalMaxCount * (p.durationMinutes * 60)) p.totalMaxCount
          (p.durationMinutes * 60) t').2) := by
  unfold enforceRedisModelRateLimitOnStore enforceRedisLoopOnStore
  rw [checkSingleOnStore_totalOnly sc store p (u 0) t' hs hd ht]
  by_cases hb : (tbAllowOn store (totalKeyOf sc p)
      (p.totalMaxCount * (p.durationMinutes * 60)) p.totalMaxCount
      (p.durationMinutes * 60) t').2 = false
  · rw [if_pos hb]
    dsimp only
    rw [if_pos rfl]
    have hb' : (tbAllowOn store (totalKeyOf sc p)
        (p.totalMaxCount * (p.durationMinutes * 60)) p.totalMaxCount
        (p.durationMinutes * 60) t').2 = false := hb
    rw [hb']
    rfl
  · rw [if_neg hb]
    dsimp only
    unfold enforceRedisLoopOnStore
    rw [if_neg (by simp : ¬ (true = false)),
      if_neg (by omega : ¬ (200 : Nat) ≥ 400)]
    rw [Bool.not_eq_false] at hb
    rw [hb]

/-- Evaluation of the in-process enforcement for a single
total-count-only policy with a succeeding handler. -/
theorem enforceMemory_totalOnly (st : MemState) (p : ModelRateLimitPolicy)
    (t' : Int) (hs : p.successMaxCount = 0) (hd : 0 < p.durationMinutes)
    (ht : 0 < p.totalMaxCount) :
    enforceMemoryModelRateLimit st [p] t' 200 =
      ((requestLocked st ("MRRL" ++ p.identifier) p.totalMaxCount
          (p.durationMinutes * 60) t').1,
        (requestLocked st ("MRRL" ++ p.identifier) p.totalMaxCount
          (p.durationMinutes * 60) t').2) := by
  unfold enforceMemoryModelRateLimit enforceMemoryLoop AllowWithCheck
  rw [if_neg (by omega : ¬ p.durationMinutes * 60 ≤ 0)]
  dsimp only
  rw [if_neg (by simp [hs] : ¬ (p.successMaxCount > 0 ∧
    checkLocked st ("MRRLS" ++ p.identifier) p.successMaxCount
      (p.durationMinutes * 60) t' = false))]
  rw [if_pos ht]
  by_cases hb : (requestLocked st ("MRRL" ++ p.identifier) p.totalMaxCount
      (p.durationMinutes * 60) t').2 = false
  · rw [if_pos hb]
    dsimp only
    rw [if_pos rfl]
    rw [← hb]
  · rw [if_neg hb]
    rw [if_neg (by simp [hs] : ¬ p.successMaxCount > 0)]
    dsimp only
    unfold enforceMemoryLoop
    rw [if_neg (by simp : ¬ (true = false)),
      if_pos (by omega : (200 : Nat) < 400)]
    dsimp only
    rw [Bool.not_eq_false] at hb
    rw [hb]
    rfl

theorem burstPattern_succ_pos (n k : Nat) :
    burstPattern (n + 1) (k + 1) = true :: burstPattern n k := by
  simp [burstPattern, Nat.succ_min_succ, List.replicate_succ,
    Nat.succ_sub_succ]

theorem burstPattern_succ_zero (n : Nat) :
    burstPattern (n + 1) 0 = false :: burstPattern n 0 := by
  simp [burstPattern, List.replicate_succ]

theorem tbAllowOn_eval (store : RedisStore) (K : String)
    (cap rate req now : Int) {b : TBState}
    (hfind : (store.tb.find? (fun q => q.1 = K)).map (·.2) = some b) :
    tbAllowOn store K cap rate req now =
      ({ store with tb := (K, (tbAllow cap rate req b now).1) ::
          store.tb.filter (fun q => ¬ q.1 = K) },
        (tbAllow cap rate req b now).2) := by
  unfold tbAllowOn
  rw [hfind]
  rfl

theorem tbAllowOn_eval_fresh (store : RedisStore) (K : String)
    (cap rate req now : Int)
    (hfind : (store.tb.find? (fun q => q.1 = K)).map (·.2) = none) :
    tbAllowOn store K cap rate req now =
      ({ store with tb :=
          (K, (tbAllow cap rate req (TBState.fresh cap now) now).1) ::
            store.tb.filter (fun q => ¬ q.1 = K) },
        (tbAllow cap rate req (TBState.fresh cap now) now).2) := by
  unfold tbAllowOn
  rw [hfind]
  rfl

theorem find_tb_cons (K : String) (b : TBState) (l : List (String × TBState)) :
    ((((K, b) :: l.filter (fun q => ¬ q.1 = K)).find?
      (fun q => q.1 = K)).map (·.2)) = some b := by
  simp [List.find?]

theorem tbAllow_instant_zero (C d : Int) (hd : 1 ≤ d) (hC : 0 ≤ C) (t : Int) :
    tbAllow (C * d) C d ⟨0, t⟩ t = (⟨0, t⟩, false) := by
  unfold tbAllow
  simp only [sub_self, mul_zero, add_zero]
  rw [min_eq_right (by positivity)]
  rw [if_neg (by omega : ¬ d ≤ 0)]

theorem tbAllow_instant_succ (C d : Int) (hd : 1 ≤ d) (k : Nat)
    (hm : ((k + 1 : Nat) : Int) ≤ C) (t : Int) :
    tbAllow (C * d) C d ⟨((k + 1 : Nat) : Int) * d, t⟩ t =
      (⟨(k : Int) * d, t⟩, true) := by
  unfold tbAllow
  simp only [sub_self, mul_zero, add_zero]
  rw [min_eq_right (mul_le_mul_of_nonneg_right hm (by omega))]
  rw [if_pos (by
    calc d = 1 * d := (one_mul d).symm
    _ ≤ ((k + 1 : Nat) : Int) * d :=
      mul_le_mul_of_nonneg_right (by push_cast; omega) (by omega))]
  have : ((k + 1 : Nat) : Int) * d - d = (k : Int) * d := by
    push_cast
    ring
  rw [this]

/-- Shared-store side of the burst run: from a store whose bucket for the
policy's total key holds `m` request-costs of tokens, a same-instant
trace admits exactly the first `m` requests. -/
theorem runRedis_burst (id : String) (dm C : Int) (u : Nat → Nat → String)
    (hdm : 1 ≤ dm) (hC : 1 ≤ C) :
    ∀ (n m j : Nat) (store : RedisStore) (t : Nat),
      (m : Int) ≤ C →
      (store.tb.find? (fun q => q.1 = totalKeyOf 1 ⟨id, dm, C, 0⟩)).map (·.2) =
        some ⟨(m : Int) * (dm * 60), (t : Int)⟩ →
      (runRedisTrace 1 [⟨id, dm, C, 0⟩] u store j
        (List.replicate n (t, 200))).2 = burstPattern n m := by
  intro n
  induction n with
  | zero =>
      intro m j store t _ _
      simp [runRedisTrace, burstPattern]
  | succ n ih =>
      intro m j store t hm hfind
      rw [List.replicate_succ]
      unfold runRedisTrace
      rw [enforceOnStore_totalOnly 1 store ⟨id, dm, C, 0⟩ (u j) ((t : Nat) : Int)
        rfl (by show (0 : Int) < dm; omega) (by show (0 : Int) < C; omega)]
      dsimp only
      rw [tbAllowOn_eval store (totalKeyOf 1 ⟨id, dm, C, 0⟩) (C * (dm * 60)) C
        (dm * 60) ((t : Nat) : Int) hfind]
      dsimp only
      cases m with
      | zero =>
          simp only [Nat.cast_zero, zero_mul] at hfind ⊢
          rw [tbAllow_instant_zero C (dm * 60)
            (by calc (1 : Int) ≤ 60 := by omega
                _ = 1 * 60 := by omega
                _ ≤ dm * 60 := mul_le_mul_of_nonneg_right hdm (by omega))
            (by omega) ((t : Nat) : Int)]
          dsimp only
          rw [ih 0 (j + 1) _ t (by simp; omega)
            (by
              rw [find_tb_cons]
              simp)]
          rw [burstPattern_succ_zero]
      | succ k =>
          rw [tbAllow_instant_succ C (dm * 60)
            (by calc (1 : Int) ≤ 60 := by omega
                _ = 1 * 60 := by omega
                _ ≤ dm * 60 := mul_le_mul_of_nonneg_right hdm (by omega))
            k hm ((t : Nat) : Int)]
          dsimp only
          rw [ih k (j + 1) _ t (by push_cast at hm ⊢; omega)
            (by rw [find_tb_cons])]
          rw [burstPattern_succ_pos]

theorem memFind_memSet (st : MemState) (k : String) (q : List Int) :
    memFind (memSet st k q) k = some q := by
  simp [memFind, memSet, List.find?]

theorem requestLocked_some (st : MemState) (key : String) {q : List Int}
    (maxR dur now : Int) (hfind : memFind st key = some q) :
    requestLocked st key maxR dur now =
      if (q.length : Int) < maxR then (memSet st key (q ++ [now]), true)
      else if now - q.headD 0 ≥ dur then (memSet st key (q.tail ++ [now]), true)
      else (st, false) := by
  unfold requestLocked
  rw [hfind]

theorem requestLocked_none (st : MemState) (key : String)
    (maxR dur now : Int) (hfind : memFind st key = none) :
    requestLocked st key maxR dur now = (memSet st key [now], true) := by
  unfold requestLocked
  rw [hfind]

/-- In-process side of the burst run: from a store whose window for the
policy's total key holds `k` same-instant entries, a same-instant trace
admits exactly the first `maxCount - k` requests. -/
theorem runMemory_burst (id : String) (dm C : Int)
    (hdm : 1 ≤ dm) (hC : 1 ≤ C) :
    ∀ (n k : Nat) (st : MemState) (t : Nat), k ≤ C.toNat →
      memFind st ("MRRL" ++ id) =
        some (List.replicate k ((t : Nat) : Int)) →
      (runMemoryTrace [⟨id, dm, C, 0⟩] st (List.replicate n (t, 200))).2 =
        burstPattern n (C.toNat - k) := by
  intro n
  induction n with
  | zero =>
      intro k st t _ _
      simp [runMemoryTrace, burstPattern]
  | succ n ih =>
      intro k st t hk hfind
      rw [List.replicate_succ]
      unfold runMemoryTrace
      rw [enforceMemory_totalOnly st ⟨id, dm, C, 0⟩ ((t : Nat) : Int) rfl
        (by show (0 : Int) < dm; omega) (by show (0 : Int) < C; omega)]
      dsimp only
      rw [requestLocked_some st ("MRRL" ++ id) C (dm * 60) ((t : Nat) : Int)
        hfind]
      by_cases hlt : (((List.replicate k ((t : Nat) : Int)).length : Nat) : Int) < C
      · rw [if_pos hlt]
        dsimp only
        have hk' : k < C.toNat := by
          simp only [List.length_replicate] at hlt
          omega
        rw [ih (k + 1) _ t (by omega)
          (by
            rw [memFind_memSet]
            rw [← List.replicate_succ'])]
        have hsplit : C.toNat - k = (C.toNat - (k + 1)) + 1 := by omega
        rw [hsplit, burstPattern_succ_pos]
      · rw [if_neg hlt]
        have hk0 : k = C.toNat := by
          simp only [List.length_replicate] at hlt
          omega
        have hhead : (List.replicate k ((t : Nat) : Int)).headD 0 =
            ((t : Nat) : Int) := by
          have hk1 : 1 ≤ k := by omega
          obtain ⟨k', rfl⟩ : ∃ k', k = k' + 1 := ⟨k - 1, by omega⟩
          simp [List.replicate_succ]
        rw [if_neg (by
          rw [hhead]
          have h60 : (60 : Int) ≤ dm * 60 := by
            calc (60 : Int) = 1 * 60 := by omega
            _ ≤ dm * 60 := mul_le_mul_of_nonneg_right hdm (by omega)
          omega)]
        dsimp only
        rw [ih k st t hk hfind]
        have : C.toNat - k = 0 := by omega
        rw [this, burstPattern_succ_zero]

/-- C9 (amended): on a same-instant sequential burst from fresh state the
two paths agree exactly — both admit the first `TotalMaxCount` requests of
the burst and reject the rest — while mid-window arrivals may diverge (the
token bucket refills continuously, the in-process window does not; see the
counterexample). -/
theorem fallback_burst_equivalence_amended (id : String) (dm C : Int)
    (u : Nat → Nat → String) (t n : Nat) (hdm : 1 ≤ dm) (hC : 1 ≤ C) :
    (runRedisTrace 1 [⟨id, dm, C, 0⟩] u RedisStore.empty 0
      (List.replicate n (t, 200))).2 =
    (runMemoryTrace [⟨id, dm, C, 0⟩] MemState.empty
      (List.replicate n (t, 200))).2 := by
  cases n with
  | zero => rfl
  | succ n =>
      have hd60 : (1 : Int) ≤ dm * 60 := by
        calc (1 : Int) ≤ 60 := by omega
        _ = 1 * 60 := by omega
        _ ≤ dm * 60 := mul_le_mul_of_nonneg_right hdm (by omega)
      have hCcast : ((C.toNat : Nat) : Int) = C := Int.toNat_of_nonneg (by omega)
      have hCsplit : ∃ k', C.toNat = k' + 1 := ⟨C.toNat - 1, by omega⟩
      obtain ⟨k', hk'⟩ := hCsplit
      -- shared-store side
      have hredis : (runRedisTrace 1 [⟨id, dm, C, 0⟩] u RedisStore.empty 0
          (List.replicate (n + 1) (t, 200))).2 = burstPattern (n + 1) C.toNat := by
        rw [List.replicate_succ]
        unfold runRedisTrace
        rw [enforceOnStore_totalOnly 1 RedisStore.empty ⟨id, dm, C, 0⟩ (u 0)
          ((t : Nat) : Int) rfl (by show (0 : Int) < dm; omega)
          (by show (0 : Int) < C; omega)]
        dsimp only
        rw [tbAllowOn_eval_fresh RedisStore.empty
          (totalKeyOf 1 ⟨id, dm, C, 0⟩) (C * (dm * 60)) C (dm * 60)
          ((t : Nat) : Int) rfl]
        have hfreshtok : TBState.fresh (C * (dm * 60)) ((t : Nat) : Int) =
            ⟨((k' + 1 : Nat) : Int) * (dm * 60), ((t : Nat) : Int)⟩ := by
          unfold TBState.fresh
          rw [show ((k' + 1 : Nat) : Int) = C by rw [← hk', hCcast]]
        rw [hfreshtok]
        rw [tbAllow_instant_succ C (dm * 60) hd60 k'
          (by
            have hcc : ((k' + 1 : Nat) : Int) = C := by
              rw [← hk', hCcast]
            omega)
          ((t : Nat) : Int)]
        dsimp only
        rw [runRedis_burst id dm C u hdm hC n k' 1 _ t
          (by rw [← hCcast, hk']; push_cast; omega)
          (by rw [find_tb_cons])]
        rw [hk', burstPattern_succ_pos]
      -- in-process side
      have hmem : (runMemoryTrace [⟨id, dm, C, 0⟩] MemState.empty
          (List.replicate (n + 1) (t, 200))).2 = burstPattern (n + 1) C.toNat := by
        rw [List.replicate_succ]
        unfold runMemoryTrace
        rw [enforceMemory_totalOnly MemState.empty ⟨id, dm, C, 0⟩
          ((t : Nat) : Int) rfl (by show (0 : Int) < dm; omega)
          (by show (0 : Int) < C; omega)]
        dsimp only
        rw [requestLocked_none MemState.empty ("MRRL" ++ id) C (dm * 60)
          ((t : Nat) : Int) rfl]
        dsimp only
        rw [runMemory_burst id dm C hdm hC n 1 _ t (by omega)
          (by
            rw [memFind_memSet]
            rfl)]
        rw [show C.toNat = (C.toNat - 1) + 1 by omega, burstPattern_succ_pos]
        rw [show C.toNat - 1 + 1 - 1 = C.toNat - 1 by omega]
      rw [hredis, hmem]

/-- Witness for C9 (amended): a 3-request instantaneous burst against
`{duration 1min, total 2}` admits exactly two on both paths. -/
theorem fallback_burst_equivalence_amended_witness :
    (1 : Int) ≤ 1 ∧ (1 : Int) ≤ 2 ∧
    ((runRedisTrace 1 [⟨"a", 1, 2, 0⟩] (fun _ _ => "u") RedisStore.empty 0
        (List.replicate 3 (7, 200))).2 =
      (runMemoryTrace [⟨"a", 1, 2, 0⟩] MemState.empty
        (List.replicate 3 (7, 200))).2) :=
  ⟨by norm_num, by norm_num,
    fallback_burst_equivalence_amended "a" 1 2 (fun _ _ => "u") 7 3
      (by norm_num) (by norm_num)⟩

end NewApi
